import Mathlib

/-!
# Sonántica audio graph — verification of the spec's claims

A shallow embedding of the `espectro` audio-graph kernel and of the reference
nodes of the `compositor` and `orquestador` plugins, translated from the Rust
sources under `src/plugins/desktop/`.

Modelling conventions, used uniformly below:

* 32-bit floats are modelled as exact rationals (`ℚ`).  Every arithmetic
  operation the claims touch (`+`, `*`, `clamp`, comparisons) is exact; the
  transcendental kernels the DSP derives constants from (`cos`, `sin`, `exp`,
  `log10`, `10^x`, the constant π/4) are not ℚ-definable and are supplied as
  an abstract `Kernels` record of functions `ℚ → ℚ` plus the π/4 constant.
  Claims never depend on their values, only (for the compressor) on
  side conditions such as `exp` of a negative number lying in `[0, 1]`,
  which the corresponding theorems take as hypotheses.
* `HashMap`s are modelled as association lists in insertion order (the spec
  declares iteration order unspecified; insertion order is the determinization).
* A Rust panic (out-of-bounds index, `unwrap` of `None`, integer underflow)
  is modelled by returning `none` from the enclosing operation; the in-degree
  counters of Kahn's algorithm are `ℤ` so that the (unreachable in practice)
  `usize` underflow does not wrap to a value this model treats as zero.
* `Result<T, GraphError>` is `Except GraphError T`; functions that both
  mutate `self` and return `Result` return the updated state alongside.
-/

/-- `f32::clamp` (source: `value.clamp(min, max)`): bring `value` into
`[lo, hi]`. -/
def rclamp (value lo hi : ℚ) : ℚ :=
  if value < lo then lo else if value > hi then hi else value

/-- The transcendental f32 computations the DSP nodes use, left abstract:
`pow10 x` stands for `10.0f32.powf(x)`, `expq` for `f32::exp`, `sinq`/`cosq`
for `f32::sin`/`f32::cos`, `log10q` for `f32::log10`, `pi4` for the
constant `std::f32::consts::FRAC_PI_4` and `piq` for `std::f32::consts::PI`. -/
structure Kernels where
  pow10 : ℚ → ℚ
  expq : ℚ → ℚ
  sinq : ℚ → ℚ
  cosq : ℚ → ℚ
  log10q : ℚ → ℚ
  pi4 : ℚ
  piq : ℚ

/-- `espectro::buffer::AudioBuffer`: interleaved samples. -/
structure AudioBuffer where
  channels : ℕ
  sample_rate : ℕ
  samples : List ℚ
  deriving DecidableEq, Repr

namespace AudioBuffer

/-- `AudioBuffer::new(channels, sample_rate, num_samples)`:
`samples = vec![0.0; num_samples * channels]`. -/
def new (channels sample_rate num_samples : ℕ) : AudioBuffer :=
  ⟨channels, sample_rate, List.replicate (num_samples * channels) 0⟩

/-- `AudioBuffer::silence` — delegates to `new`. -/
def silence (channels sample_rate num_samples : ℕ) : AudioBuffer :=
  new channels sample_rate num_samples

/-- `AudioBuffer::num_frames`: `0` when `channels == 0`, else
`samples.len() / channels`. -/
def num_frames (b : AudioBuffer) : ℕ :=
  if b.channels = 0 then 0 else b.samples.length / b.channels

/-- `AudioBuffer::mix`: element-wise add over the common prefix
(`len = min`), keeping `self`'s tail beyond `other`'s length. -/
def mix (b other : AudioBuffer) : AudioBuffer :=
  { b with samples :=
      List.zipWith (· + ·) b.samples other.samples
        ++ b.samples.drop other.samples.length }

/-- `AudioBuffer::apply_gain`: multiply every sample. -/
def apply_gain (b : AudioBuffer) (gain : ℚ) : AudioBuffer :=
  { b with samples := b.samples.map (fun s => s * gain) }

/-- `AudioBuffer::peak_level`: fold of `max` over absolute values,
starting from `0.0`. -/
def peak_level (b : AudioBuffer) : ℚ :=
  (b.samples.map (fun s => |s|)).foldl max 0

end AudioBuffer

/-- `espectro::connection::Connection`. -/
structure Connection where
  from_node : String
  from_output : ℕ
  to_node : String
  to_input : ℕ
  deriving DecidableEq, Repr

/-- `Connection::simple`: output 0 to input 0. -/
def Connection.simple (from_node to_node : String) : Connection :=
  ⟨from_node, 0, to_node, 0⟩

/-- `espectro::error::GraphError`. -/
inductive GraphError where
  | NodeAlreadyExists (id : String)
  | NodeNotFound (id : String)
  | CycleDetected
  | InvalidConnection (msg : String)
  | ParameterNotFound (name : String)
  | InvalidParameterValue (msg : String)
  | ProcessingError (msg : String)
  | BufferSizeMismatch (expected actual : ℕ)
  | ChannelMismatch (expected actual : ℕ)
  deriving DecidableEq, Repr

/-- The `thiserror`-derived `Display` of `GraphError` (`e.to_string()`),
following the `#[error("...")]` templates in `error.rs`. -/
def GraphError.toDisplay : GraphError → String
  | .NodeAlreadyExists id => "Node '" ++ id ++ "' already exists in the graph"
  | .NodeNotFound id => "Node '" ++ id ++ "' not found in the graph"
  | .CycleDetected => "Connection would create a cycle in the graph"
  | .InvalidConnection m => "Invalid connection: " ++ m
  | .ParameterNotFound n => "Parameter '" ++ n ++ "' not found"
  | .InvalidParameterValue m => "Invalid parameter value: " ++ m
  | .ProcessingError m => "Audio processing error: " ++ m
  | .BufferSizeMismatch e a =>
      "Buffer size mismatch: expected " ++ toString e ++ ", got " ++ toString a
  | .ChannelMismatch e a =>
      "Channel count mismatch: expected " ++ toString e ++ ", got " ++ toString a

/-- `espectro::node::NodeCategory`. -/
inductive NodeCategory where
  | Source | Effect | Routing | Sink
  deriving DecidableEq, Repr

/-- `espectro::node::ParameterDescriptor`. -/
structure ParameterDescriptor where
  name : String
  min : ℚ
  max : ℚ
  default : ℚ
  unit : String
  label : String
  deriving DecidableEq, Repr

/-- `ParameterDescriptor::new` (the `&str` arguments become owned strings). -/
def ParameterDescriptor.new (name : String) (min max default : ℚ)
    (unit label : String) : ParameterDescriptor :=
  ⟨name, min, max, default, unit, label⟩

/-- `espectro::node::NodeMetadata`. -/
structure NodeMetadata where
  name : String
  category : NodeCategory
  input_channels : ℕ
  output_channels : ℕ
  parameters : List ParameterDescriptor
  plugin : String
  deriving DecidableEq, Repr

/-- Shared helper of the nodes' private `db_to_linear`: `10^(db/20)`
(each of `GainNode`, `ChannelStripNode`, `CompressorNode` carries an
identical copy in the source). -/
def db_to_linear (K : Kernels) (db : ℚ) : ℚ :=
  K.pow10 (db / 20)

/-! ## Character-level string helpers

The equalizer's composite parameter names (`band_<i>_<gain|freq|q>`) are
parsed with `str::split('_')` and `str::parse::<usize>()`.  Both are modelled
at the `List Char` level (`String.data`), where induction is available. -/

/-- `str::split(sep)` as an eager list of fragments: splitting the empty
string yields one empty fragment, a trailing separator yields a trailing
empty fragment, exactly as Rust's iterator collects. -/
def splitChar (sep : Char) : List Char → List (List Char)
  | [] => [[]]
  | c :: cs =>
      if c = sep then [] :: splitChar sep cs
      else
        match splitChar sep cs with
        | [] => [[c]]
        | h :: t => (c :: h) :: t

/-- Decimal digits of `n`, most significant first — the characters
`format!` prints for a `usize`. -/
def natDigits (n : ℕ) : List Char :=
  if h : n < 10 then [Char.ofNat (48 + n)]
  else natDigits (n / 10) ++ [Char.ofNat (48 + n % 10)]
  termination_by n
  decreasing_by exact Nat.div_lt_self (by omega) (by omega)

/-- Value of a decimal digit character (only used under `Char.isDigit`). -/
def digitVal (c : Char) : ℕ := c.toNat - 48

/-- `str::parse::<usize>()`: an optional leading `+`, then one or more
decimal digits.  (Rust also fails on overflow past `usize::MAX`; an
overflowing numeral here instead parses to a huge `ℕ`, which every caller
in the model rejects just as Rust's `Err` path does, via the
`index >= bands.len()` check.) -/
def parseUsize (s : List Char) : Option ℕ :=
  let digits := fun l : List Char =>
    if l ≠ [] ∧ l.all Char.isDigit
    then some (l.foldl (fun acc c => acc * 10 + digitVal c) 0) else none
  match s with
  | [] => none
  | c :: rest => if c = '+' then digits rest else digits (c :: rest)

/-- The digit character of `m < 10` is a digit. -/
theorem isDigit_ofNat_digit (m : ℕ) (h : m < 10) :
    (Char.ofNat (48 + m)).isDigit = true := by
  interval_cases m <;> decide

/-- `digitVal` recovers `m < 10` from its digit character. -/
theorem digitVal_ofNat_digit (m : ℕ) (h : m < 10) :
    digitVal (Char.ofNat (48 + m)) = m := by
  interval_cases m <;> decide

/-- The digit character of `m < 10` is not `'+'`. -/
theorem ofNat_digit_ne_plus (m : ℕ) (h : m < 10) :
    Char.ofNat (48 + m) ≠ '+' := by
  interval_cases m <;> decide

/-- `natDigits` produces digit characters only. -/
theorem natDigits_all_digit (n : ℕ) : (natDigits n).all Char.isDigit = true := by
  induction n using Nat.strong_induction_on with
  | _ n ih =>
    rw [natDigits]
    split
    · rename_i h
      simp [isDigit_ofNat_digit n h]
    · rename_i h
      rw [List.all_append]
      have h1 := ih (n / 10) (Nat.div_lt_self (by omega) (by omega))
      have h2 := isDigit_ofNat_digit (n % 10) (Nat.mod_lt _ (by omega))
      simp [h1, h2]

/-- `natDigits` is never empty. -/
theorem natDigits_ne_nil (n : ℕ) : natDigits n ≠ [] := by
  rw [natDigits]
  split <;> simp

/-- The digit fold over `natDigits n` starting at `acc` yields
`acc * 10 ^ (digit count) + n`. -/
theorem digitFold_natDigits (n : ℕ) : ∀ acc : ℕ,
    (natDigits n).foldl (fun acc c => acc * 10 + digitVal c) acc
      = acc * 10 ^ (natDigits n).length + n := by
  induction n using Nat.strong_induction_on with
  | _ n ih =>
    intro acc
    rw [natDigits]
    split
    · rename_i h
      simp [digitVal_ofNat_digit n h]
    · rename_i h
      rw [List.foldl_append]
      rw [ih (n / 10) (Nat.div_lt_self (by omega) (by omega)) acc]
      simp only [List.foldl_cons, List.foldl_nil, List.length_append,
        List.length_cons, List.length_nil]
      rw [digitVal_ofNat_digit (n % 10) (Nat.mod_lt _ (by omega))]
      rw [pow_succ]
      have := Nat.div_add_mod n 10
      ring_nf
      omega

/-- The head of `natDigits n` is not `'+'`. -/
theorem natDigits_head_ne_plus (n : ℕ) :
    ∀ l, natDigits n ≠ '+' :: l := by
  intro l
  rw [natDigits]
  split
  · rename_i h
    simp [ofNat_digit_ne_plus n h]
  · rename_i h
    intro hc
    rcases hd : natDigits (n / 10) with _ | ⟨c, cs⟩
    · exact natDigits_ne_nil _ hd
    · rw [hd] at hc
      simp only [List.cons_append, List.cons.injEq] at hc
      have hdig := natDigits_all_digit (n / 10)
      rw [hd] at hdig
      simp only [List.all_cons, Bool.and_eq_true] at hdig
      rw [hc.1] at hdig
      exact absurd hdig.1 (by decide)

/-- Parsing the printed decimal digits of `n` returns `n`. -/
theorem parseUsize_natDigits (n : ℕ) : parseUsize (natDigits n) = some n := by
  have hne : natDigits n ≠ [] := natDigits_ne_nil n
  have hdig := natDigits_all_digit n
  have hfold := digitFold_natDigits n 0
  simp only [Nat.zero_mul, Nat.zero_add] at hfold
  cases hnd : natDigits n with
  | nil => exact absurd hnd hne
  | cons c cs =>
    have hcp : c ≠ '+' := by
      intro hc
      exact natDigits_head_ne_plus n cs (by rw [hnd, hc])
    rw [hnd] at hdig hfold
    simp only [parseUsize, if_neg hcp]
    rw [if_pos ⟨List.cons_ne_nil c cs, hdig⟩, hfold]

/-- Splitting a separator-free fragment yields that one fragment. -/
theorem splitChar_no_sep (sep : Char) (l : List Char)
    (h : ∀ c ∈ l, c ≠ sep) : splitChar sep l = [l] := by
  induction l with
  | nil => rfl
  | cons c cs ih =>
    have hc : c ≠ sep := h c (List.mem_cons_self c cs)
    rw [splitChar, if_neg hc, ih (fun x hx => h x (List.mem_cons_of_mem c hx))]

/-- Splitting past a separator-free prefix peels off that prefix. -/
theorem splitChar_append_sep (sep : Char) (l₁ l₂ : List Char)
    (h : ∀ c ∈ l₁, c ≠ sep) :
    splitChar sep (l₁ ++ sep :: l₂) = l₁ :: splitChar sep l₂ := by
  induction l₁ with
  | nil => simp [splitChar]
  | cons c cs ih =>
    have hc : c ≠ sep := h c (List.mem_cons_self c cs)
    rw [List.cons_append, splitChar, if_neg hc,
      ih (fun x hx => h x (List.mem_cons_of_mem c hx))]

/-! ## The reference nodes

One structure per Rust node type, fields and constructors as in the source.
`process` returns `Option` (`none` = panic, see the module comment) of
`Except GraphError (updated node × output buffer)`. -/

/-- `compositor::nodes::gain::GainNode`. -/
structure GainNode where
  id : String
  gain_db : ℚ
  gain_linear : ℚ
  deriving DecidableEq, Repr

namespace GainNode

/-- `GainNode::new`. -/
def new (id : String) : GainNode := ⟨id, 0, 1⟩

/-- `GainNode::update_gain`. -/
def update_gain (K : Kernels) (n : GainNode) : GainNode :=
  { n with gain_linear := db_to_linear K n.gain_db }

/-- `GainNode::metadata`. -/
def metadata (_n : GainNode) : NodeMetadata :=
  { name := "Gain", category := .Effect, input_channels := 2,
    output_channels := 2,
    parameters := [ParameterDescriptor.new "gain" (-60) 24 0 "dB" "Gain"],
    plugin := "compositor" }

/-- `GainNode::process`. -/
def process (n : GainNode) (input : AudioBuffer) :
    Except GraphError (GainNode × AudioBuffer) :=
  .ok (n, input.apply_gain n.gain_linear)

/-- `GainNode::set_parameter`. -/
def set_parameter (K : Kernels) (n : GainNode) (name : String) (value : ℚ) :
    Except GraphError GainNode :=
  if name = "gain" then
    .ok (update_gain K { n with gain_db := rclamp value (-60) 24 })
  else .error (.ParameterNotFound name)

/-- `GainNode::get_parameter`. -/
def get_parameter (n : GainNode) (name : String) : Option ℚ :=
  if name = "gain" then some n.gain_db else none

end GainNode

/-- Strict interleaved-pair traversal shared by the stereo loops written as
`for i in (0..samples.len()).step_by(2)` with unguarded `samples[i + 1]`:
maps the left sample by `fL` and the right by `fR`; on an odd-length list
the final iteration's `samples[i + 1]` is out of bounds (`none` = panic). -/
def stereoPairsMap (fL fR : ℚ → ℚ) : List ℚ → Option (List ℚ)
  | [] => some []
  | [_] => none
  | l :: r :: rest => (stereoPairsMap fL fR rest).map (fun t => fL l :: fR r :: t)

/-- `orquestador::nodes::pan::PanNode`. -/
structure PanNode where
  id : String
  pan : ℚ
  deriving DecidableEq, Repr

namespace PanNode

/-- `PanNode::new` (pan = 0.0, center). -/
def new (id : String) : PanNode := ⟨id, 0⟩

/-- `PanNode::calculate_gains`: constant-power gains
`(cos θ, sin θ)` with `θ = (pan + 1) * FRAC_PI_4`. -/
def calculate_gains (K : Kernels) (n : PanNode) : ℚ × ℚ :=
  let pan_angle := (n.pan + 1) * K.pi4
  (K.cosq pan_angle, K.sinq pan_angle)

/-- `PanNode::metadata`. -/
def metadata (_n : PanNode) : NodeMetadata :=
  { name := "Pan", category := .Routing, input_channels := 2,
    output_channels := 2,
    parameters := [ParameterDescriptor.new "pan" (-1) 1 0 "" "Pan"],
    plugin := "orquestador" }

/-- `PanNode::process`: clone, then the unguarded stride-2 loop
`output.samples[i] = left * left_gain; output.samples[i + 1] = right * right_gain`. -/
def process (K : Kernels) (n : PanNode) (input : AudioBuffer) :
    Option (Except GraphError (PanNode × AudioBuffer)) :=
  let g := calculate_gains K n
  (stereoPairsMap (fun l => l * g.1) (fun r => r * g.2) input.samples).map
    (fun s => .ok (n, { input with samples := s }))

/-- `PanNode::set_parameter`. -/
def set_parameter (n : PanNode) (name : String) (value : ℚ) :
    Except GraphError PanNode :=
  if name = "pan" then .ok { n with pan := rclamp value (-1) 1 }
  else .error (.ParameterNotFound name)

/-- `PanNode::get_parameter`. -/
def get_parameter (n : PanNode) (name : String) : Option ℚ :=
  if name = "pan" then some n.pan else none

end PanNode

/-- `orquestador::nodes::mixer::MixerNode`. -/
structure MixerNode where
  id : String
  num_inputs : ℕ
  deriving DecidableEq, Repr

namespace MixerNode

/-- `MixerNode::new`. -/
def new (id : String) (num_inputs : ℕ) : MixerNode := ⟨id, num_inputs⟩

/-- `MixerNode::metadata` — an empty parameter list. -/
def metadata (n : MixerNode) : NodeMetadata :=
  { name := toString n.num_inputs ++ "-Input Mixer", category := .Routing,
    input_channels := 2, output_channels := 2, parameters := [],
    plugin := "orquestador" }

/-- `MixerNode::process`: pass-through (`input.clone()`). -/
def process (n : MixerNode) (input : AudioBuffer) :
    Except GraphError (MixerNode × AudioBuffer) :=
  .ok (n, input)

/-- `MixerNode::set_parameter`: "No parameters" — `Ok(())` for every name. -/
def set_parameter (n : MixerNode) (_name : String) (_value : ℚ) :
    Except GraphError MixerNode :=
  .ok n

/-- `MixerNode::get_parameter`: always `None`. -/
def get_parameter (_n : MixerNode) (_name : String) : Option ℚ :=
  none

end MixerNode

/-- `orquestador::nodes::channel_strip::ChannelStripNode`. -/
structure ChannelStripNode where
  id : String
  gain_db : ℚ
  gain_linear : ℚ
  pan : ℚ
  mute : Bool
  solo : Bool
  deriving DecidableEq, Repr

namespace ChannelStripNode

/-- `ChannelStripNode::new`. -/
def new (id : String) : ChannelStripNode := ⟨id, 0, 1, 0, false, false⟩

/-- `ChannelStripNode::update_gain`. -/
def update_gain (K : Kernels) (n : ChannelStripNode) : ChannelStripNode :=
  { n with gain_linear := db_to_linear K n.gain_db }

/-- `ChannelStripNode::calculate_pan_gains`. -/
def calculate_pan_gains (K : Kernels) (n : ChannelStripNode) : ℚ × ℚ :=
  let pan_angle := (n.pan + 1) * K.pi4
  (K.cosq pan_angle, K.sinq pan_angle)

/-- `ChannelStripNode::metadata`. -/
def metadata (_n : ChannelStripNode) : NodeMetadata :=
  { name := "Channel Strip", category := .Routing, input_channels := 2,
    output_channels := 2,
    parameters :=
      [ParameterDescriptor.new "gain" (-60) 24 0 "dB" "Gain",
       ParameterDescriptor.new "pan" (-1) 1 0 "" "Pan",
       ParameterDescriptor.new "mute" 0 1 0 "" "Mute",
       ParameterDescriptor.new "solo" 0 1 0 "" "Solo"],
    plugin := "orquestador" }

/-- `ChannelStripNode::process`: silence when muted, else the unguarded
stride-2 loop applying `gain_linear * pan gain` per channel. -/
def process (K : Kernels) (n : ChannelStripNode) (input : AudioBuffer) :
    Option (Except GraphError (ChannelStripNode × AudioBuffer)) :=
  if n.mute then
    some (.ok (n, AudioBuffer.silence input.channels input.sample_rate
      input.num_frames))
  else
    let g := calculate_pan_gains K n
    (stereoPairsMap (fun l => l * n.gain_linear * g.1)
        (fun r => r * n.gain_linear * g.2) input.samples).map
      (fun s => .ok (n, { input with samples := s }))

/-- `ChannelStripNode::set_parameter`. -/
def set_parameter (K : Kernels) (n : ChannelStripNode) (name : String)
    (value : ℚ) : Except GraphError ChannelStripNode :=
  if name = "gain" then
    .ok (update_gain K { n with gain_db := rclamp value (-60) 24 })
  else if name = "pan" then .ok { n with pan := rclamp value (-1) 1 }
  else if name = "mute" then .ok { n with mute := value > 5 / 10 }
  else if name = "solo" then .ok { n with solo := value > 5 / 10 }
  else .error (.ParameterNotFound name)

/-- `ChannelStripNode::get_parameter` — booleans encoded as `0.0`/`1.0`. -/
def get_parameter (n : ChannelStripNode) (name : String) : Option ℚ :=
  if name = "gain" then some n.gain_db
  else if name = "pan" then some n.pan
  else if name = "mute" then some (if n.mute then 1 else 0)
  else if name = "solo" then some (if n.solo then 1 else 0)
  else none

end ChannelStripNode

/-- `compositor::nodes::compressor::CompressorNode`.  The Rust field
`ratio` is named `ratioVal` here. -/
structure CompressorNode where
  id : String
  threshold_db : ℚ
  ratioVal : ℚ
  attack_ms : ℚ
  release_ms : ℚ
  makeup_gain_db : ℚ
  envelope : ℚ
  sample_rate : ℚ
  deriving DecidableEq, Repr

namespace CompressorNode

/-- `CompressorNode::new`. -/
def new (id : String) : CompressorNode :=
  ⟨id, -20, 4, 10, 100, 0, 0, 48000⟩

/-- `CompressorNode::linear_to_db`: `20 * max(x, 0.0001).log10()`. -/
def linear_to_db (K : Kernels) (x : ℚ) : ℚ :=
  20 * K.log10q (max x (1 / 10000))

/-- `CompressorNode::metadata`. -/
def metadata (_n : CompressorNode) : NodeMetadata :=
  { name := "Compressor", category := .Effect, input_channels := 2,
    output_channels := 2,
    parameters :=
      [ParameterDescriptor.new "threshold" (-60) 0 (-20) "dB" "Threshold",
       ParameterDescriptor.new "ratio" 1 20 4 ":1" "Ratio",
       ParameterDescriptor.new "attack" (1 / 10) 100 10 "ms" "Attack",
       ParameterDescriptor.new "release" 10 1000 100 "ms" "Release",
       ParameterDescriptor.new "makeup" 0 24 0 "dB" "Makeup Gain"],
    plugin := "compositor" }

/-- The body of `CompressorNode::process`'s stride-2 loop, threading the
envelope: per frame, peak detect, one-pole envelope update, gain-reduction
branch, then `sample * gain_reduction * makeup_linear` on both channels.
An odd-length sample list hits the unguarded `samples[i + 1]` (`none`). -/
def process_loop (K : Kernels) (threshold_db ratioVal : ℚ)
    (attack_coeff release_coeff threshold_linear makeup_linear : ℚ) :
    ℚ → List ℚ → Option (ℚ × List ℚ)
  | env, [] => some (env, [])
  | _, [_] => none
  | env, l :: r :: rest =>
      let peak := max |l| |r|
      let coeff := if peak > env then attack_coeff else release_coeff
      let env' := peak + coeff * (env - peak)
      let gain_reduction :=
        if env' > threshold_linear then
          let over_db := linear_to_db K env' - threshold_db
          let compressed_db := over_db / ratioVal
          let reduction_db := over_db - compressed_db
          db_to_linear K (-reduction_db)
        else 1
      (process_loop K threshold_db ratioVal attack_coeff release_coeff
          threshold_linear makeup_linear env' rest).map
        (fun p => (p.1, l * gain_reduction * makeup_linear
          :: r * gain_reduction * makeup_linear :: p.2))

/-- `CompressorNode::process`. -/
def process (K : Kernels) (n : CompressorNode) (input : AudioBuffer) :
    Option (Except GraphError (CompressorNode × AudioBuffer)) :=
  let attack_coeff := K.expq (-1 / (n.attack_ms * n.sample_rate / 1000))
  let release_coeff := K.expq (-1 / (n.release_ms * n.sample_rate / 1000))
  let threshold_linear := db_to_linear K n.threshold_db
  let makeup_linear := db_to_linear K n.makeup_gain_db
  (process_loop K n.threshold_db n.ratioVal attack_coeff release_coeff
      threshold_linear makeup_linear n.envelope input.samples).map
    (fun p => .ok ({ n with envelope := p.1 }, { input with samples := p.2 }))

/-- `CompressorNode::set_parameter`. -/
def set_parameter (n : CompressorNode) (name : String) (value : ℚ) :
    Except GraphError CompressorNode :=
  if name = "threshold" then .ok { n with threshold_db := rclamp value (-60) 0 }
  else if name = "ratio" then .ok { n with ratioVal := rclamp value 1 20 }
  else if name = "attack" then .ok { n with attack_ms := rclamp value (1 / 10) 100 }
  else if name = "release" then .ok { n with release_ms := rclamp value 10 1000 }
  else if name = "makeup" then .ok { n with makeup_gain_db := rclamp value 0 24 }
  else .error (.ParameterNotFound name)

/-- `CompressorNode::get_parameter`. -/
def get_parameter (n : CompressorNode) (name : String) : Option ℚ :=
  if name = "threshold" then some n.threshold_db
  else if name = "ratio" then some n.ratioVal
  else if name = "attack" then some n.attack_ms
  else if name = "release" then some n.release_ms
  else if name = "makeup" then some n.makeup_gain_db
  else none

end CompressorNode

/-- `compositor::nodes::eq::BiquadFilter` (normalized peaking-EQ
coefficients plus per-channel Direct Form I state). -/
structure BiquadFilter where
  a0 : ℚ
  a1 : ℚ
  a2 : ℚ
  b1 : ℚ
  b2 : ℚ
  x1_l : ℚ
  x2_l : ℚ
  y1_l : ℚ
  y2_l : ℚ
  x1_r : ℚ
  x2_r : ℚ
  y1_r : ℚ
  y2_r : ℚ
  deriving DecidableEq, Repr

namespace BiquadFilter

/-- `BiquadFilter::new`: identity coefficients, zero state. -/
def new : BiquadFilter := ⟨1, 0, 0, 0, 0, 0, 0, 0, 0, 0, 0, 0, 0⟩

/-- `BiquadFilter::update_peaking_eq` (RBJ cookbook peaking EQ). -/
def update_peaking_eq (K : Kernels) (f : BiquadFilter)
    (freq gain_db q sample_rate : ℚ) : BiquadFilter :=
  let w0 := 2 * K.piq * freq / sample_rate
  let alpha := K.sinq w0 / (2 * q)
  let a := K.pow10 (gain_db / 40)
  let b0 := 1 + alpha * a
  let b1 := -2 * K.cosq w0
  let b2 := 1 - alpha * a
  let a0 := 1 + alpha / a
  let a1 := -2 * K.cosq w0
  let a2 := 1 - alpha / a
  { f with
    a0 := b0 / a0
    a1 := b1 / a0
    a2 := b2 / a0
    b1 := a1 / a0
    b2 := a2 / a0 }

/-- One left-channel Direct Form I step: output and updated history. -/
def left_step (f : BiquadFilter) (x : ℚ) : BiquadFilter × ℚ :=
  let y := f.a0 * x + f.a1 * f.x1_l + f.a2 * f.x2_l
    - f.b1 * f.y1_l - f.b2 * f.y2_l
  ({ f with x2_l := f.x1_l, x1_l := x, y2_l := f.y1_l, y1_l := y }, y)

/-- One right-channel Direct Form I step. -/
def right_step (f : BiquadFilter) (x : ℚ) : BiquadFilter × ℚ :=
  let y := f.a0 * x + f.a1 * f.x1_r + f.a2 * f.x2_r
    - f.b1 * f.y1_r - f.b2 * f.y2_r
  ({ f with x2_r := f.x1_r, x1_r := x, y2_r := f.y1_r, y1_r := y }, y)

/-- `BiquadFilter::process_stereo`: stride-2 loop over interleaved samples;
the right-channel access is guarded by `i + 1 < samples.len()`, so an
odd-length list processes its final sample on the left channel only. -/
def process_stereo (f : BiquadFilter) : List ℚ → BiquadFilter × List ℚ
  | [] => (f, [])
  | [x_l] =>
      let s := left_step f x_l
      (s.1, [s.2])
  | x_l :: x_r :: rest =>
      let sL := left_step f x_l
      let sR := right_step sL.1 x_r
      let t := process_stereo sR.1 rest
      (t.1, sL.2 :: sR.2 :: t.2)

end BiquadFilter

/-- `compositor::nodes::eq::EQBand`. -/
structure EQBand where
  frequency : ℚ
  gain_db : ℚ
  q : ℚ
  filter : BiquadFilter
  deriving DecidableEq, Repr

/-- `compositor::nodes::eq::EqualizerNode`. -/
structure EqualizerNode where
  id : String
  bands : List EQBand
  sample_rate : ℚ
  deriving DecidableEq, Repr

/-- In-place update of element `i` (models `&mut self.bands[band_idx]`;
callers have already checked `i < bands.len()`). -/
def listModify (f : α → α) : ℕ → List α → List α
  | _, [] => []
  | 0, x :: xs => f x :: xs
  | i + 1, x :: xs => x :: listModify f i xs

/-- The composite parameter name `format!("band_{}_{}", i, suffix)`
(e.g. `band_0_gain`). -/
def bandParamName (i : ℕ) (suffix : String) : String :=
  String.mk ("band_".data ++ natDigits i ++ '_' :: suffix.data)

namespace EqualizerNode

/-- The ten default band centre frequencies. -/
def default_frequencies : List ℚ :=
  [60, 170, 310, 600, 1000, 3000, 6000, 12000, 14000, 16000]

/-- `EqualizerNode::new`: band `i` gets `default_frequencies[i]` when
`i < 10`, else `1000.0`; gain 0, Q 1, fresh filter. -/
def new (id : String) (num_bands : ℕ) : EqualizerNode :=
  { id := id,
    bands := (List.range num_bands).map (fun i =>
      { frequency := (default_frequencies.get? i).getD 1000,
        gain_db := 0, q := 1, filter := BiquadFilter.new }),
    sample_rate := 48000 }

/-- `EqualizerNode::update_filters`: re-derive every band's coefficients. -/
def update_filters (K : Kernels) (n : EqualizerNode) : EqualizerNode :=
  let newBands := n.bands.map (fun band =>
    let f := band.filter.update_peaking_eq K band.frequency band.gain_db
      band.q n.sample_rate
    { band with filter := f })
  { n with bands := newBands }

/-- The body of `EqualizerNode::process`: apply each band in sequence,
skipping a band when `|gain_db| <= 0.01` (source: process only if
`band.gain_db.abs() > 0.01`); each applied band's filter state advances. -/
def process_bands : List EQBand → List ℚ → List EQBand × List ℚ
  | [], samples => ([], samples)
  | band :: rest, samples =>
      if |band.gain_db| > 1 / 100 then
        let s := band.filter.process_stereo samples
        let t := process_bands rest s.2
        ({ band with filter := s.1 } :: t.1, t.2)
      else
        let t := process_bands rest samples
        (band :: t.1, t.2)

/-- `EqualizerNode::process`. -/
def process (n : EqualizerNode) (input : AudioBuffer) :
    Except GraphError (EqualizerNode × AudioBuffer) :=
  let t := process_bands n.bands input.samples
  .ok ({ n with bands := t.1 }, { input with samples := t.2 })

/-- `EqualizerNode::set_parameter`: parse `band_<i>_<gain|freq|q>`,
clamp into the band's range, then `update_filters`. -/
def set_parameter (K : Kernels) (n : EqualizerNode) (name : String)
    (value : ℚ) : Except GraphError EqualizerNode :=
  match splitChar '_' name.data with
  | [p0, p1, p2] =>
      if p0 = "band".data then
        match parseUsize p1 with
        | none => .error (.ParameterNotFound name)
        | some band_idx =>
            if band_idx ≥ n.bands.length then .error (.ParameterNotFound name)
            else if p2 = "gain".data then
              let bs := listModify
                (fun b => { b with gain_db := rclamp value (-24) 24 })
                band_idx n.bands
              .ok (update_filters K { n with bands := bs })
            else if p2 = "freq".data then
              let bs := listModify
                (fun b => { b with frequency := rclamp value 20 20000 })
                band_idx n.bands
              .ok (update_filters K { n with bands := bs })
            else if p2 = "q".data then
              let bs := listModify
                (fun b => { b with q := rclamp value (1 / 10) 10 })
                band_idx n.bands
              .ok (update_filters K { n with bands := bs })
            else .error (.ParameterNotFound name)
      else .error (.ParameterNotFound name)
  | _ => .error (.ParameterNotFound name)

/-- `EqualizerNode::get_parameter`: same parse, read the band's field. -/
def get_parameter (n : EqualizerNode) (name : String) : Option ℚ :=
  match splitChar '_' name.data with
  | [p0, p1, p2] =>
      if p0 = "band".data then
        match parseUsize p1 with
        | none => none
        | some band_idx =>
            match n.bands.get? band_idx with
            | none => none
            | some band =>
                if p2 = "gain".data then some band.gain_db
                else if p2 = "freq".data then some band.frequency
                else if p2 = "q".data then some band.q
                else none
      else none
  | _ => none

end EqualizerNode

/-! ## Closed node universe

The graph stores `Box<dyn AudioNode>`; the universe of reference node
implementations is closed (the six node types of the two plugins), so the
trait object is a sum with an exhaustive dispatcher. -/

/-- A `Box<dyn AudioNode>` holding one of the reference nodes. -/
inductive RefNode where
  | gain : GainNode → RefNode
  | pan : PanNode → RefNode
  | mixer : MixerNode → RefNode
  | strip : ChannelStripNode → RefNode
  | comp : CompressorNode → RefNode
  | equalizer : EqualizerNode → RefNode
  deriving DecidableEq, Repr

namespace RefNode

/-- `AudioNode::id`. -/
def nodeId : RefNode → String
  | .gain n => n.id
  | .pan n => n.id
  | .mixer n => n.id
  | .strip n => n.id
  | .comp n => n.id
  | .equalizer n => n.id

/-- `AudioNode::process` (dispatch). -/
def process (K : Kernels) :
    RefNode → AudioBuffer → Option (Except GraphError (RefNode × AudioBuffer))
  | .gain n, b => some ((n.process b).map (fun p => (.gain p.1, p.2)))
  | .pan n, b => (n.process K b).map (fun r => r.map (fun p => (.pan p.1, p.2)))
  | .mixer n, b => some ((n.process b).map (fun p => (.mixer p.1, p.2)))
  | .strip n, b => (n.process K b).map (fun r => r.map (fun p => (.strip p.1, p.2)))
  | .comp n, b => (n.process K b).map (fun r => r.map (fun p => (.comp p.1, p.2)))
  | .equalizer n, b => some ((n.process b).map (fun p => (.equalizer p.1, p.2)))

/-- `AudioNode::set_parameter` (dispatch). -/
def set_parameter (K : Kernels) (node : RefNode) (name : String) (value : ℚ) :
    Except GraphError RefNode :=
  match node with
  | .gain n => (n.set_parameter K name value).map .gain
  | .pan n => (n.set_parameter name value).map .pan
  | .mixer n => (n.set_parameter name value).map .mixer
  | .strip n => (n.set_parameter K name value).map .strip
  | .comp n => (n.set_parameter name value).map .comp
  | .equalizer n => (n.set_parameter K name value).map .equalizer

/-- `AudioNode::get_parameter` (dispatch). -/
def get_parameter (node : RefNode) (name : String) : Option ℚ :=
  match node with
  | .gain n => n.get_parameter name
  | .pan n => n.get_parameter name
  | .mixer n => n.get_parameter name
  | .strip n => n.get_parameter name
  | .comp n => n.get_parameter name
  | .equalizer n => n.get_parameter name

/-- Whether the node is the (parameterless) `MixerNode`. -/
def isMixer : RefNode → Bool
  | .mixer _ => true
  | _ => false

end RefNode

/-! ## Association-list primitives (the `HashMap` determinization) -/

/-- `HashMap::get`. -/
def alookup : List (String × α) → String → Option α
  | [], _ => none
  | (k, v) :: rest, key => if key = k then some v else alookup rest key

/-- `HashMap::get_mut` followed by `*slot = v` (first matching key). -/
def aset (key : String) (v : α) : List (String × α) → List (String × α)
  | [] => []
  | (k, x) :: rest =>
      if k = key then (k, v) :: rest else (k, x) :: aset key v rest

/-- `HashMap::insert`: replace when present, append when fresh. -/
def ainsert (key : String) (v : α) (m : List (String × α)) :
    List (String × α) :=
  if (alookup m key).isSome then aset key v m else m ++ [(key, v)]

/-- `HashMap::remove`. -/
def aremove (key : String) (m : List (String × α)) : List (String × α) :=
  m.filter (fun p => p.1 ≠ key)

/-- `espectro::graph::AudioGraph`. -/
structure AudioGraph where
  nodes : List (String × RefNode)
  connections : List Connection
  execution_order : List String
  buffer_cache : List (String × AudioBuffer)

namespace AudioGraph

/-- `AudioGraph::new`. -/
def new : AudioGraph := ⟨[], [], [], []⟩

/-- `AudioGraph::node_ids`. -/
def node_ids (g : AudioGraph) : List String := g.nodes.map (fun p => p.1)

end AudioGraph

/-! ## `would_create_cycle`: stack DFS

The Rust loop pops from a `Vec` stack (top = head of the model's list),
checks the popped id against `from_node`, skips visited ids, else marks
visited and pushes every outgoing target.  Termination is by the pair
(number of ids of the universe `U` not yet visited, stack length); the
stack always holds members of `U` (= `to_node` of the probed connection
plus every edge target), witnessed by the `hs` argument. -/

/-- Targets of the outgoing edges of `current` in connection order. -/
def outgoingTargets (conns : List Connection) (current : String) :
    List String :=
  (conns.filter (fun c => c.from_node = current)).map (fun c => c.to_node)

/-- Filtering by the stricter "not visited" predicate after marking a
fresh, present element strictly shrinks the filtered list. -/
theorem length_filter_visited_lt (U visited : List String) (a : String)
    (haU : a ∈ U) (hav : a ∉ visited) :
    (U.filter (fun s => s ∉ a :: visited)).length
      < (U.filter (fun s => s ∉ visited)).length := by
  induction U with
  | nil => cases haU
  | cons x xs ih =>
    by_cases hxa : x = a
    · subst hxa
      rw [List.filter_cons, List.filter_cons]
      simp only [List.mem_cons, decide_not]
      rw [if_neg (by simp), if_pos (by simpa using hav)]
      have hsub : (xs.filter (fun s => s ∉ x :: visited)).length
          ≤ (xs.filter (fun s => s ∉ visited)).length := by
        apply List.Sublist.length_le
        apply List.monotone_filter_right
        intro s hs
        simp only [List.mem_cons, decide_not, decide_eq_true_eq] at hs ⊢
        simp only [Bool.not_eq_true', decide_eq_false_iff_not] at hs ⊢
        exact fun h => hs (Or.inr h)
      simpa using Nat.lt_succ_of_le hsub
    · have haxs : a ∈ xs := by
        rcases List.mem_cons.mp haU with h | h
        · exact absurd h.symm hxa
        · exact h
      rw [List.filter_cons, List.filter_cons]
      by_cases hxv : x ∈ visited
      · rw [if_neg (by simp [hxv]), if_neg (by simp [hxv])]
        exact ih haxs
      · have hxav : x ∉ a :: visited := by
          intro h
          rcases List.mem_cons.mp h with h | h
          · exact hxa h
          · exact hxv h
        rw [if_pos (by simpa using hxav), if_pos (by simpa using hxv)]
        simpa using ih haxs

/-- The DFS of `AudioGraph::would_create_cycle`.  `target` is
`new_connection.from_node`; returning `true` means a path from a stack
element to `target` along `conns` was found. -/
def cycleDfs (conns : List Connection) (target : String) (U : List String)
    (hU : ∀ c ∈ conns, c.to_node ∈ U)
    (stack visited : List String) (hs : ∀ s ∈ stack, s ∈ U) : Bool :=
  match stack with
  | [] => false
  | current :: rest =>
      if current = target then true
      else if hv : current ∈ visited then
        cycleDfs conns target U hU rest visited
          (fun s h => hs s (List.mem_cons_of_mem _ h))
      else
        cycleDfs conns target U hU
          ((outgoingTargets conns current).reverse ++ rest)
          (current :: visited)
          (by
            intro s h
            rcases List.mem_append.mp h with h | h
            · rw [List.mem_reverse] at h
              rcases List.mem_map.mp h with ⟨c, hc, rfl⟩
              exact hU c (List.mem_of_mem_filter hc)
            · exact hs s (List.mem_cons_of_mem _ h))
  termination_by ((U.filter (fun s => s ∉ visited)).length, stack.length)
  decreasing_by
    · apply Prod.Lex.right
      simp
    · apply Prod.Lex.left
      exact length_filter_visited_lt U visited current
        (hs current (List.mem_cons_self _ _)) hv

/-- `AudioGraph::would_create_cycle`. -/
def AudioGraph.would_create_cycle (g : AudioGraph)
    (new_connection : Connection) : Bool :=
  cycleDfs g.connections new_connection.from_node
    (new_connection.to_node :: g.connections.map (fun c => c.to_node))
    (fun c hc => List.mem_cons_of_mem _ (List.mem_map_of_mem _ hc))
    [new_connection.to_node] []
    (by intro s h; simpa using List.mem_cons.mp h |>.imp_right (by simp))

/-! ## `recompute_execution_order`: Kahn's algorithm

In-degrees are `ℤ` (see the module comment); a `get_mut(..).unwrap()` on an
absent key is a panic (`none`).  The queue is a FIFO list, the iteration
order of the `HashMap`s is their association-list order. -/

/-- The loop `for conn in &self.connections` building `in_degree` and
`adj_list`: `*in_degree.get_mut(&conn.to_node).unwrap() += 1`, then
`adj_list.get_mut(&conn.from_node).unwrap().push(conn.to_node)`. -/
def buildLoop : List Connection → List (String × ℤ) →
    List (String × List String) →
    Option (List (String × ℤ) × List (String × List String))
  | [], inDeg, adj => some (inDeg, adj)
  | conn :: rest, inDeg, adj =>
      match alookup inDeg conn.to_node with
      | none => none
      | some d =>
          match alookup adj conn.from_node with
          | none => none
          | some lst =>
              buildLoop rest (aset conn.to_node (d + 1) inDeg)
                (aset conn.from_node (lst ++ [conn.to_node]) adj)

/-- The inner loop `for neighbor in neighbors`: decrement the neighbor's
in-degree (`unwrap` = panic on an absent key) and enqueue it when the
decremented degree is zero. -/
def processNeighbors : List String → List (String × ℤ) → List String →
    Option (List (String × ℤ) × List String)
  | [], inDeg, queue => some (inDeg, queue)
  | nbr :: rest, inDeg, queue =>
      match alookup inDeg nbr with
      | none => none
      | some d =>
          processNeighbors rest (aset nbr (d - 1) inDeg)
            (if d - 1 = 0 then queue ++ [nbr] else queue)

/-- Total positive in-degree, the potential of the Kahn loop. -/
def degSum (inDeg : List (String × ℤ)) : ℕ :=
  (inDeg.map (fun p => p.2.toNat)).sum

/-- `aset` on a present key trades the old entry's potential for the new. -/
theorem degSum_aset (m : List (String × ℤ)) (k : String) (d v : ℤ)
    (h : alookup m k = some d) :
    degSum (aset k v m) + d.toNat = degSum m + v.toNat := by
  induction m with
  | nil => cases h
  | cons p rest ih =>
    obtain ⟨pk, pv⟩ := p
    by_cases hk : k = pk
    · rw [alookup, if_pos hk] at h
      obtain rfl : pv = d := by injection h
      rw [aset, if_pos hk.symm]
      simp [degSum]
      omega
    · rw [alookup, if_neg hk] at h
      rw [aset, if_neg (fun hp => hk hp.symm)]
      have := ih h
      simp [degSum] at this ⊢
      omega

/-- `processNeighbors` never increases the potential `degSum + |queue|`. -/
theorem processNeighbors_measure (nbrs : List String) :
    ∀ inDeg queue inDeg' queue',
      processNeighbors nbrs inDeg queue = some (inDeg', queue') →
      degSum inDeg' + queue'.length ≤ degSum inDeg + queue.length := by
  induction nbrs with
  | nil =>
    intro inDeg queue inDeg' queue' h
    simp only [processNeighbors, Option.some.injEq, Prod.mk.injEq] at h
    rw [h.1, h.2]
  | cons nbr rest ih =>
    intro inDeg queue inDeg' queue' h
    rw [processNeighbors] at h
    cases hl : alookup inDeg nbr with
    | none => rw [hl] at h; cases h
    | some d =>
        rw [hl] at h
        have hstep := ih (aset nbr (d - 1) inDeg)
          (if d - 1 = 0 then queue ++ [nbr] else queue) inDeg' queue' h
        have hds := degSum_aset inDeg nbr d (d - 1) hl
        by_cases hz : d - 1 = 0
        · rw [if_pos hz] at hstep
          simp only [List.length_append, List.length_cons, List.length_nil]
            at hstep
          omega
        · rw [if_neg hz] at hstep
          omega

/-- The Kahn worklist: pop the queue's front, append to the output, then
decrement the successors' in-degrees (`if let Some(neighbors)` skips a
missing adjacency entry without panicking). -/
def kahnLoop (adj : List (String × List String)) (queue : List String)
    (inDeg : List (String × ℤ)) (sorted : List String) :
    Option (List String) :=
  match queue with
  | [] => some sorted
  | node_id :: qrest =>
      match alookup adj node_id with
      | none => kahnLoop adj qrest inDeg (sorted ++ [node_id])
      | some neighbors =>
          match hpn : processNeighbors neighbors inDeg qrest with
          | none => none
          | some st => kahnLoop adj st.2 st.1 (sorted ++ [node_id])
  termination_by degSum inDeg + queue.length
  decreasing_by
    · simp
    · have := processNeighbors_measure neighbors inDeg qrest st.1 st.2
        (by rw [hpn])
      simp only [List.length_cons]
      omega

/-- `AudioGraph::recompute_execution_order`, returning the new order rather
than storing it (callers thread the state). -/
def AudioGraph.recompute_execution_order (g : AudioGraph) :
    Option (Except GraphError (List String)) :=
  let keys := g.nodes.map (fun p => p.1)
  let inDeg0 := keys.map (fun k => (k, (0 : ℤ)))
  let adj0 := keys.map (fun k => (k, ([] : List String)))
  match buildLoop g.connections inDeg0 adj0 with
  | none => none
  | some (inDeg, adj) =>
      let queue := (inDeg.filter (fun p => p.2 = 0)).map (fun p => p.1)
      match kahnLoop adj queue inDeg [] with
      | none => none
      | some sorted =>
          if sorted.length ≠ g.nodes.length then some (.error .CycleDetected)
          else some (.ok sorted)

/-! ## The graph's public operations

Each returns `Option (AudioGraph × Option GraphError)`: `none` is a panic,
otherwise the (possibly) mutated graph together with the `Err` the Rust
method returns, `none` for `Ok(())`.  Note that `connect`'s
`self.connections.push(connection)` happens *before*
`recompute_execution_order()?`, so a failing recompute leaves the pushed
connection behind — exactly as in the source. -/

namespace AudioGraph

/-- `AudioGraph::add_node`. -/
def add_node (g : AudioGraph) (node : RefNode) :
    Option (AudioGraph × Option GraphError) :=
  let id := node.nodeId
  if (alookup g.nodes id).isSome then some (g, some (.NodeAlreadyExists id))
  else
    let g' := { g with nodes := g.nodes ++ [(id, node)] }
    match g'.recompute_execution_order with
    | none => none
    | some (.error e) => some (g', some e)
    | some (.ok order) => some ({ g' with execution_order := order }, none)

/-- `AudioGraph::remove_node`. -/
def remove_node (g : AudioGraph) (id : String) :
    Option (AudioGraph × Option GraphError) :=
  if (alookup g.nodes id).isNone then some (g, some (.NodeNotFound id))
  else
    let newNodes := g.nodes.filter (fun p => p.1 ≠ id)
    let newConns := g.connections.filter
      (fun c => c.from_node ≠ id ∧ c.to_node ≠ id)
    let newCache := aremove id g.buffer_cache
    let g' := { g with
      nodes := newNodes
      connections := newConns
      buffer_cache := newCache }
    match g'.recompute_execution_order with
    | none => none
    | some (.error e) => some (g', some e)
    | some (.ok order) => some ({ g' with execution_order := order }, none)

/-- `AudioGraph::connect`. -/
def connect (g : AudioGraph) (connection : Connection) :
    Option (AudioGraph × Option GraphError) :=
  if (alookup g.nodes connection.from_node).isNone then
    some (g, some (.NodeNotFound connection.from_node))
  else if (alookup g.nodes connection.to_node).isNone then
    some (g, some (.NodeNotFound connection.to_node))
  else if g.would_create_cycle connection then
    some (g, some .CycleDetected)
  else
    let g' := { g with connections := g.connections ++ [connection] }
    match g'.recompute_execution_order with
    | none => none
    | some (.error e) => some (g', some e)
    | some (.ok order) => some ({ g' with execution_order := order }, none)

/-- `AudioGraph::disconnect`. -/
def disconnect (g : AudioGraph) (from_node to_node : String) :
    Option (AudioGraph × Option GraphError) :=
  let newConns := g.connections.filter
    (fun c => ¬(c.from_node = from_node ∧ c.to_node = to_node))
  let g' := { g with connections := newConns }
  match g'.recompute_execution_order with
  | none => none
  | some (.error e) => some (g', some e)
  | some (.ok order) => some ({ g' with execution_order := order }, none)

/-- `AudioGraph::set_parameter`: a node error is wrapped as
`ProcessingError(e.to_string())` by the `map_err` in the source. -/
def set_parameter (K : Kernels) (g : AudioGraph) (node_id parameter : String)
    (value : ℚ) : AudioGraph × Except GraphError Unit :=
  match alookup g.nodes node_id with
  | none => (g, .error (.NodeNotFound node_id))
  | some node =>
      match node.set_parameter K parameter value with
      | .error e => (g, .error (.ProcessingError e.toDisplay))
      | .ok node' => ({ g with nodes := aset node_id node' g.nodes }, .ok ())

/-- `AudioGraph::get_parameter`. -/
def get_parameter (g : AudioGraph) (node_id parameter : String) :
    Except GraphError (Option ℚ) :=
  match alookup g.nodes node_id with
  | none => .error (.NodeNotFound node_id)
  | some node => .ok (node.get_parameter parameter)

end AudioGraph

/-- `AudioGraph::gather_inputs` over explicit connection list and cache:
no incoming edges yields a fresh silent 2 × 48000 × 512 buffer; otherwise
clone the first upstream's cached buffer and `mix` in the rest (a missing
cache entry is `NodeNotFound`). -/
def gather_inputs (conns : List Connection)
    (cache : List (String × AudioBuffer)) (node_id : String) :
    Except GraphError AudioBuffer :=
  let incoming := conns.filter (fun c => c.to_node = node_id)
  match incoming with
  | [] => .ok (AudioBuffer.silence 2 48000 512)
  | first :: rest =>
      match alookup cache first.from_node with
      | none => .error (.NodeNotFound first.from_node)
      | some first_buffer => gatherMix cache rest first_buffer
where
  /-- The `for conn in incoming.iter().skip(1)` mixing loop. -/
  gatherMix (cache : List (String × AudioBuffer)) :
      List Connection → AudioBuffer → Except GraphError AudioBuffer
    | [], mixed => .ok mixed
    | conn :: rest, mixed =>
        match alookup cache conn.from_node with
        | none => .error (.NodeNotFound conn.from_node)
        | some buffer => gatherMix cache rest (mixed.mix buffer)

/-- `AudioGraph::get_final_output` over explicit components: the sink set is
every node-map key with no outgoing connection (node-map iteration order);
return the first sink's cached buffer. -/
def get_final_output (nodes : List (String × RefNode))
    (conns : List Connection) (cache : List (String × AudioBuffer)) :
    Except GraphError AudioBuffer :=
  let sink_nodes := (nodes.map (fun p => p.1)).filter
    (fun id => ¬ conns.any (fun c => c.from_node = id))
  match sink_nodes with
  | [] => .error (.ProcessingError "No sink nodes found")
  | s :: _ =>
      match alookup cache s with
      | none => .error (.NodeNotFound s)
      | some b => .ok b

/-- The `for node_id in &self.execution_order.clone()` sweep of
`AudioGraph::process`: gather, process (wrapping a node error as
`ProcessingError(e.to_string())`), cache the output.  Returns the final
(nodes, cache) state plus the early-exit error, if any. -/
def processSweep (K : Kernels) (conns : List Connection) :
    List String → List (String × RefNode) → List (String × AudioBuffer) →
    Option ((List (String × RefNode) × List (String × AudioBuffer))
      × Option GraphError)
  | [], nodes, cache => some ((nodes, cache), none)
  | node_id :: rest, nodes, cache =>
      match gather_inputs conns cache node_id with
      | .error e => some ((nodes, cache), some e)
      | .ok node_input =>
          match alookup nodes node_id with
          | none => some ((nodes, cache), some (.NodeNotFound node_id))
          | some node =>
              match node.process K node_input with
              | none => none
              | some (.error e) =>
                  some ((nodes, cache), some (.ProcessingError e.toDisplay))
              | some (.ok out) =>
                  processSweep K conns rest (aset node_id out.1 nodes)
                    (ainsert node_id out.2 cache)

/-- `AudioGraph::process`: clear the cache, seed the slot of the *first* id
of the execution order with the input, sweep in topological order, then
read the final output off a sink node.  Returns the mutated graph and the
`Result` (`none` = a node panicked). -/
def AudioGraph.process (K : Kernels) (g : AudioGraph) (input : AudioBuffer) :
    Option (AudioGraph × Except GraphError AudioBuffer) :=
  let cache0 : List (String × AudioBuffer) := []
  let cache1 := match g.execution_order.head? with
    | some first_node_id => ainsert first_node_id input cache0
    | none => cache0
  match processSweep K g.connections g.execution_order g.nodes cache1 with
  | none => none
  | some (st, some e) =>
      some ({ g with nodes := st.1, buffer_cache := st.2 }, .error e)
  | some (st, none) =>
      let g' := { g with nodes := st.1, buffer_cache := st.2 }
      some (g', get_final_output st.1 g.connections st.2)

/-! ## Concrete instances used by the claim theorems -/

/-- A concrete kernel record for closed statements (the claim theorems that
depend on kernel values take them as hypotheses instead). -/
def constKernels : Kernels :=
  ⟨fun _ => 1, fun _ => 1 / 2, fun _ => 0, fun _ => 1, fun _ => 0, 1, 3⟩

/-- A two-sample stereo input buffer with nonzero samples. -/
def c1Input : AudioBuffer := ⟨2, 48000, [1 / 4, -1 / 2]⟩

/-- The one-node graph `add_node(GainNode::new("a"))` produces. -/
def c1Graph : AudioGraph :=
  ⟨[("a", .gain (GainNode.new "a"))], [], ["a"], []⟩

/-- Applying unit gain is the identity. -/
theorem apply_gain_one (b : AudioBuffer) : b.apply_gain 1 = b := by
  simp [AudioBuffer.apply_gain]

set_option maxRecDepth 4000 in
/-- C1 (code_bug): the spec says the first node of the execution order is
seeded with the submitted input and processes *it*; the code seeds the
cache slot but `gather_inputs` never reads a node's own slot — a node with
no incoming connections always gathers the fresh silent
2 × 48000 × 512 buffer, so the submitted input is discarded.  Concretely:
after `add_node` of a single gain node, `process` on a nonzero input
returns the processed silent buffer, not the input. -/
theorem C1_first_node_gathers_silence :
    AudioGraph.new.add_node (.gain (GainNode.new "a")) = some (c1Graph, none)
    ∧ gather_inputs c1Graph.connections (ainsert "a" c1Input []) "a"
        = .ok (AudioBuffer.silence 2 48000 512)
    ∧ (AudioGraph.process constKernels c1Graph c1Input).map (fun p => p.2)
        = some (.ok (AudioBuffer.silence 2 48000 512))
    ∧ AudioBuffer.silence 2 48000 512 ≠ c1Input := by
  refine ⟨?_, rfl, ?_, ?_⟩
  · simp [AudioGraph.new, AudioGraph.add_node, AudioGraph.recompute_execution_order,
      alookup, buildLoop, kahnLoop, processNeighbors, c1Graph, RefNode.nodeId,
      GainNode.new, degSum]
  · have h2 : (AudioGraph.process constKernels c1Graph c1Input).map (fun p => p.2)
        = some (.ok ((AudioBuffer.silence 2 48000 512).apply_gain 1)) := rfl
    rw [h2, apply_gain_one]
  · intro h
    have := congrArg (fun b => b.samples.length) h
    simp [AudioBuffer.silence, AudioBuffer.new, c1Input] at this

/-- C2 (code_bug): `PanNode::process` iterates `(0..len).step_by(2)` and
reads `samples[i + 1]` without a guard, so on an odd-length buffer the last
iteration indexes out of bounds (a panic, `none` here) instead of leaving
the unpaired sample untouched; an even-length buffer processes fine.  The
pan value is the centre default; the gain kernel plays no role in the
out-of-bounds behaviour. -/
theorem C2_pan_odd_length_panics :
    (PanNode.new "pan1").process constKernels ⟨2, 48000, [1]⟩ = none
    ∧ ((PanNode.new "pan1").process constKernels ⟨2, 48000, [1, 1]⟩).isSome
        = true := by
  constructor
  · rfl
  · rfl

/-- The one-gain-node graph used by the parameter-routing theorems. -/
def c3Graph : AudioGraph :=
  ⟨[("g", .gain (GainNode.new "g"))], [], ["g"], []⟩

/-- C3 (counterexample): on a gain node, `AudioGraph::set_parameter` with an
unknown parameter name returns `ProcessingError("Parameter 'bogus' not
found")` — the node's `ParameterNotFound` is consumed by the `map_err` —
not the `ParameterNotFound` variant the claim requires. -/
theorem C3_counterexample_wrapped_error :
    (AudioGraph.set_parameter constKernels c3Graph "g" "bogus" 0).2
        = .error (.ProcessingError "Parameter 'bogus' not found")
    ∧ (AudioGraph.set_parameter constKernels c3Graph "g" "bogus" 0).2
        ≠ .error (.ParameterNotFound "bogus") := by
  constructor
  · rfl
  · intro h
    have h' : (GraphError.ProcessingError "Parameter 'bogus' not found")
        = (GraphError.ParameterNotFound "bogus") := by
      have := (rfl :
        (AudioGraph.set_parameter constKernels c3Graph "g" "bogus" 0).2
          = .error (.ProcessingError "Parameter 'bogus' not found"))
      rw [this] at h
      injection h
    cases h'

/-- C3 (amended): `set_parameter` on an absent id returns `NodeNotFound`;
on a present node whose own `set_parameter` rejects the name, the graph
returns `ProcessingError` carrying the display string of the node's error
(for an unknown name, the display of `ParameterNotFound`), not the node's
error variant itself. -/
theorem C3_amended_set_parameter_errors (K : Kernels) (g : AudioGraph)
    (node_id name : String) (value : ℚ) :
    (alookup g.nodes node_id = none →
      AudioGraph.set_parameter K g node_id name value
        = (g, .error (.NodeNotFound node_id)))
    ∧ (∀ node e, alookup g.nodes node_id = some node →
        RefNode.set_parameter K node name value = .error e →
        AudioGraph.set_parameter K g node_id name value
          = (g, .error (.ProcessingError e.toDisplay))) := by
  constructor
  · intro h
    simp [AudioGraph.set_parameter, h]
  · intro node e hn he
    simp [AudioGraph.set_parameter, hn, he]

/-- C4 (counterexample): `MixerNode` declares no parameter descriptors,
yet its `set_parameter` returns `Ok(())` for any name (here `"gain"`)
instead of the `ParameterNotFound` the claim requires of every reference
node. -/
theorem C4_counterexample_mixer_accepts_any_name :
    (MixerNode.new "m" 2).metadata.parameters = []
    ∧ RefNode.set_parameter constKernels (.mixer (MixerNode.new "m" 2))
        "gain" 0 = .ok (.mixer (MixerNode.new "m" 2)) :=
  ⟨rfl, rfl⟩

/-- C5 (counterexample): `ChannelStripNode`'s `mute` has descriptor range
[0, 1], but `set("mute", 0.3)` stores `0.3 > 0.5 = false` and `get` then
returns the boolean encoding `0.0`, not `clamp(0.3, 0, 1) = 0.3`. -/
theorem C5_counterexample_mute_not_clamped :
    ((ChannelStripNode.new "ch1").metadata.parameters.map
        (fun d => (d.name, d.min, d.max)))
      = [("gain", -60, 24), ("pan", -1, 1), ("mute", 0, 1), ("solo", 0, 1)]
    ∧ (((ChannelStripNode.new "ch1").set_parameter constKernels "mute"
        (3 / 10)).map (fun n => n.get_parameter "mute")) = .ok (some 0)
    ∧ rclamp (3 / 10) 0 1 = 3 / 10
    ∧ (0 : ℚ) ≠ 3 / 10 := by
  refine ⟨rfl, ?_, ?_, by norm_num⟩
  · have hlt : ¬((3 : ℚ) / 10 > 5 / 10) := by norm_num
    simp [ChannelStripNode.set_parameter, ChannelStripNode.new,
      ChannelStripNode.get_parameter, hlt, Except.map]
  · have h1 : ¬((3 : ℚ) / 10 < 0) := by norm_num
    have h2 : ¬((3 : ℚ) / 10 > 1) := by norm_num
    simp [rclamp, h1, h2]

/-- C10 (confirmed): for any id present in the graph, `connect` of a
self-loop on that id is rejected with `CycleDetected` and the graph is
unchanged, whatever the edge set (in particular when it is empty): the
DFS probe starts its stack at `to_node` and immediately pops it, and the
zero-step comparison with `from_node` succeeds. -/
theorem C10_self_loop_rejected (g : AudioGraph) (id : String)
    (from_output to_input : ℕ) (h : (alookup g.nodes id).isSome) :
    g.connect ⟨id, from_output, id, to_input⟩
      = some (g, some .CycleDetected) := by
  obtain ⟨v, hv⟩ := Option.isSome_iff_exists.mp h
  have hcyc : g.would_create_cycle ⟨id, from_output, id, to_input⟩ = true := by
    rw [AudioGraph.would_create_cycle, cycleDfs]
    simp
  simp [AudioGraph.connect, hv, hcyc]

/-- C10 witness: the single-node gain graph with no edges rejects the
self-loop on `"g"`. -/
theorem C10_self_loop_rejected_witness :
    c3Graph.connect ⟨"g", 0, "g", 0⟩ = some (c3Graph, some .CycleDetected) :=
  C10_self_loop_rejected c3Graph "g" 0 0 (by rfl)

/-- With every gain flat, `process_bands` touches neither the bands nor
the samples. -/
theorem process_bands_flat (bands : List EQBand) (samples : List ℚ)
    (h : ∀ b ∈ bands, b.gain_db = 0) :
    EqualizerNode.process_bands bands samples = (bands, samples) := by
  induction bands with
  | nil => rfl
  | cons band rest ih =>
    have hb : band.gain_db = 0 := h band (List.mem_cons_self _ _)
    have hflat : ¬(|band.gain_db| > 1 / 100) := by
      rw [hb]
      norm_num
    rw [EqualizerNode.process_bands, if_neg hflat,
      ih (fun b hbm => h b (List.mem_cons_of_mem _ hbm))]

/-- C8 (confirmed): an equalizer whose every band gain is 0 dB returns the
input buffer unchanged (exactly, hence within any tolerance): each band
fails the `|gain_db| > 0.01` test and is skipped entirely. -/
theorem C8_flat_eq_is_identity (n : EqualizerNode) (input : AudioBuffer)
    (h : ∀ b ∈ n.bands, b.gain_db = 0) :
    n.process input = .ok (n, input) := by
  rw [EqualizerNode.process]
  rw [process_bands_flat n.bands input.samples h]

/-- C8 witness: the fresh 3-band EQ (all gains 0) on a concrete nonzero
buffer. -/
theorem C8_flat_eq_is_identity_witness :
    (EqualizerNode.new "eq1" 3).process ⟨2, 48000, [1 / 2, -1 / 3]⟩
      = .ok (EqualizerNode.new "eq1" 3, ⟨2, 48000, [1 / 2, -1 / 3]⟩) :=
  C8_flat_eq_is_identity _ _ (by
    intro b hb
    simp only [EqualizerNode.new, List.mem_map] at hb
    obtain ⟨i, _, rfl⟩ := hb
    rfl)

/-- The seed of a `max` fold bounds nothing from above but is preserved. -/
theorem le_foldl_max_seed : ∀ (l : List ℚ) (a : ℚ), a ≤ l.foldl max a := by
  intro l
  induction l with
  | nil => intro a; exact le_rfl
  | cons y ys ih =>
    intro a
    calc a ≤ max a y := le_max_left a y
      _ ≤ ys.foldl max (max a y) := ih (max a y)

/-- Every member of a list bounds the `max` fold from below. -/
theorem le_foldl_max_of_mem : ∀ (l : List ℚ) (a x : ℚ), x ∈ l →
    x ≤ l.foldl max a := by
  intro l
  induction l with
  | nil => intro a x hx; cases hx
  | cons y ys ih =>
    intro a x hx
    rcases List.mem_cons.mp hx with rfl | hx
    · calc x ≤ max a x := le_max_right a x
        _ ≤ ys.foldl max (max a x) := le_foldl_max_seed ys (max a x)
    · exact ih (max a y) x hx

/-- A sample's magnitude is bounded by the buffer's `peak_level`. -/
theorem abs_le_peak_level (b : AudioBuffer) (s : ℚ) (hs : s ∈ b.samples) :
    |s| ≤ b.peak_level :=
  le_foldl_max_of_mem _ 0 |s| (List.mem_map_of_mem (fun s => |s|) hs)

/-- The one-pole envelope step `peak + c * (env - peak)` stays strictly
below a bound that strictly dominates both `peak` and `env`, for any
smoothing coefficient `c ∈ [0, 1]`. -/
theorem envelope_step_lt (peak env thL c : ℚ) (hp : peak < thL)
    (he : env < thL) (hc0 : 0 ≤ c) (hc1 : c ≤ 1) :
    peak + c * (env - peak) < thL := by
  rcases eq_or_lt_of_le hc0 with rfl | hcpos
  · simpa using hp
  · have h1 : c * env < c * thL := by
      exact mul_lt_mul_of_pos_left he hcpos
    have h2 : (1 - c) * peak ≤ (1 - c) * thL :=
      mul_le_mul_of_nonneg_left hp.le (by linarith)
    nlinarith

/-- Below the threshold the compressor loop is a pure makeup-gain scaling
and the envelope stays below the threshold: per frame the detected peak
and the previous envelope are both below `thL`, so the one-pole update
stays below, the `envelope > threshold_linear` branch is never taken, and
every sample is multiplied by `1 * makeup_linear`. -/
theorem comp_loop_below (K : Kernels) (tdb rv aC rC thL mk : ℚ)
    (haC0 : 0 ≤ aC) (haC1 : aC ≤ 1) (hrC0 : 0 ≤ rC) (hrC1 : rC ≤ 1) :
    ∀ (bound : ℕ) (samples : List ℚ) (env : ℚ), samples.length ≤ bound →
      samples.length % 2 = 0 → env < thL → (∀ s ∈ samples, |s| < thL) →
      ∃ env', CompressorNode.process_loop K tdb rv aC rC thL mk env samples
          = some (env', samples.map (fun s => s * mk)) ∧ env' < thL := by
  intro bound
  induction bound with
  | zero =>
    intro samples env hlen _ henv _
    have : samples = [] := List.length_eq_zero.mp (Nat.le_zero.mp hlen)
    subst this
    exact ⟨env, rfl, henv⟩
  | succ m ih =>
    intro samples env hlen heven henv habs
    match samples with
    | [] => exact ⟨env, rfl, henv⟩
    | [x] => simp at heven
    | l :: r :: rest =>
      have hl : |l| < thL := habs l (by simp)
      have hr : |r| < thL := habs r (by simp)
      have hpeak : max |l| |r| < thL := max_lt hl hr
      have hc0 : 0 ≤ (if max |l| |r| > env then aC else rC) := by
        split <;> assumption
      have hc1 : (if max |l| |r| > env then aC else rC) ≤ 1 := by
        split <;> assumption
      have henv' : max |l| |r| + (if max |l| |r| > env then aC else rC)
          * (env - max |l| |r|) < thL :=
        envelope_step_lt _ _ _ _ hpeak henv hc0 hc1
      have hrest : rest.length ≤ m := by
        simp only [List.length_cons] at hlen
        omega
      have hresteven : rest.length % 2 = 0 := by
        simp only [List.length_cons] at heven
        omega
      obtain ⟨env', hrec, henvf⟩ := ih rest
        (max |l| |r| + (if max |l| |r| > env then aC else rC)
          * (env - max |l| |r|)) hrest hresteven henv'
        (fun s hs => habs s (by simp [hs]))
      refine ⟨env', ?_, henvf⟩
      rw [CompressorNode.process_loop]
      simp only [if_neg (not_lt.mpr henv'.le), hrec, Option.map_some]
      simp [mul_one]

/-- C9 (confirmed): with the envelope below the linear threshold
`10^(threshold_db/20)` and the input's peak level below it too, the
compressor multiplies every sample by the linear makeup gain
`10^(makeup_db/20)` and the envelope stays below the threshold.  The
attack and release coefficients are `exp` of a negative number; that they
lie in `[0, 1]` is taken as a hypothesis on the abstract `exp` kernel
(true of the real exponential). -/
theorem C9_compressor_below_threshold (K : Kernels) (n : CompressorNode)
    (input : AudioBuffer)
    (haC0 : 0 ≤ K.expq (-1 / (n.attack_ms * n.sample_rate / 1000)))
    (haC1 : K.expq (-1 / (n.attack_ms * n.sample_rate / 1000)) ≤ 1)
    (hrC0 : 0 ≤ K.expq (-1 / (n.release_ms * n.sample_rate / 1000)))
    (hrC1 : K.expq (-1 / (n.release_ms * n.sample_rate / 1000)) ≤ 1)
    (heven : input.samples.length % 2 = 0)
    (henv : n.envelope < db_to_linear K n.threshold_db)
    (hpeak : input.peak_level < db_to_linear K n.threshold_db) :
    ∃ n', n.process K input
        = some (.ok (n',
            input.apply_gain (db_to_linear K n.makeup_gain_db)))
      ∧ n'.envelope < db_to_linear K n.threshold_db := by
  have habs : ∀ s ∈ input.samples, |s| < db_to_linear K n.threshold_db :=
    fun s hs => lt_of_le_of_lt (abs_le_peak_level input s hs) hpeak
  obtain ⟨env', hrec, henvf⟩ := comp_loop_below K n.threshold_db n.ratioVal
    (K.expq (-1 / (n.attack_ms * n.sample_rate / 1000)))
    (K.expq (-1 / (n.release_ms * n.sample_rate / 1000)))
    (db_to_linear K n.threshold_db) (db_to_linear K n.makeup_gain_db)
    haC0 haC1 hrC0 hrC1 input.samples.length input.samples n.envelope
    le_rfl heven henv habs
  refine ⟨{ n with envelope := env' }, ?_, henvf⟩
  rw [CompressorNode.process]
  rw [hrec]
  rfl

/-- C9 witness: a fresh compressor (threshold −20 dB, envelope 0) on the
buffer `[1/2, −1/2]` with the constant kernels (`exp ↦ 1/2`, `10^x ↦ 1`):
every hypothesis holds concretely and the output is the input scaled by
the makeup gain. -/
theorem C9_compressor_below_threshold_witness :
    ∃ n', (CompressorNode.new "comp1").process constKernels
        ⟨2, 48000, [1 / 2, -1 / 2]⟩
      = some (.ok (n', (⟨2, 48000, [1 / 2, -1 / 2]⟩ : AudioBuffer).apply_gain
          (db_to_linear constKernels (CompressorNode.new "comp1").makeup_gain_db)))
      ∧ n'.envelope
          < db_to_linear constKernels (CompressorNode.new "comp1").threshold_db :=
  C9_compressor_below_threshold constKernels (CompressorNode.new "comp1")
    ⟨2, 48000, [1 / 2, -1 / 2]⟩
    (by norm_num [constKernels]) (by norm_num [constKernels])
    (by norm_num [constKernels]) (by norm_num [constKernels])
    (by rfl)
    (by norm_num [CompressorNode.new, db_to_linear, constKernels])
    (by
      have : |(1 : ℚ) / 2| = 1 / 2 := by
        rw [abs_of_pos]
        norm_num
      norm_num [AudioBuffer.peak_level, CompressorNode.new, db_to_linear,
        constKernels, this])

/-- C4 (amended): every reference node other than `MixerNode` rejects with
`ParameterNotFound` exactly the names its `get_parameter` does not expose
(`MixerNode`, which declares no descriptors, accepts every name as a
no-op `Ok`). -/
theorem C4_amended_unknown_name_rejected (K : Kernels) (node : RefNode)
    (name : String) (value : ℚ) (hm : node.isMixer = false)
    (hget : node.get_parameter name = none) :
    node.set_parameter K name value = .error (.ParameterNotFound name) := by
  cases node with
  | mixer n => simp [RefNode.isMixer] at hm
  | gain n =>
    simp only [RefNode.get_parameter, GainNode.get_parameter] at hget
    by_cases h : name = "gain"
    · rw [if_pos h] at hget
      cases hget
    · simp [RefNode.set_parameter, GainNode.set_parameter, h, Except.map]
  | pan n =>
    simp only [RefNode.get_parameter, PanNode.get_parameter] at hget
    by_cases h : name = "pan"
    · rw [if_pos h] at hget
      cases hget
    · simp [RefNode.set_parameter, PanNode.set_parameter, h, Except.map]
  | strip n =>
    simp only [RefNode.get_parameter, ChannelStripNode.get_parameter] at hget
    by_cases h1 : name = "gain"
    · rw [if_pos h1] at hget
      cases hget
    · rw [if_neg h1] at hget
      by_cases h2 : name = "pan"
      · rw [if_pos h2] at hget
        cases hget
      · rw [if_neg h2] at hget
        by_cases h3 : name = "mute"
        · rw [if_pos h3] at hget
          cases hget
        · rw [if_neg h3] at hget
          by_cases h4 : name = "solo"
          · rw [if_pos h4] at hget
            cases hget
          · simp [RefNode.set_parameter, ChannelStripNode.set_parameter,
              h1, h2, h3, h4, Except.map]
  | comp n =>
    simp only [RefNode.get_parameter, CompressorNode.get_parameter] at hget
    by_cases h1 : name = "threshold"
    · rw [if_pos h1] at hget
      cases hget
    · rw [if_neg h1] at hget
      by_cases h2 : name = "ratio"
      · rw [if_pos h2] at hget
        cases hget
      · rw [if_neg h2] at hget
        by_cases h3 : name = "attack"
        · rw [if_pos h3] at hget
          cases hget
        · rw [if_neg h3] at hget
          by_cases h4 : name = "release"
          · rw [if_pos h4] at hget
            cases hget
          · rw [if_neg h4] at hget
            by_cases h5 : name = "makeup"
            · rw [if_pos h5] at hget
              cases hget
            · simp [RefNode.set_parameter, CompressorNode.set_parameter,
                h1, h2, h3, h4, h5, Except.map]
  | equalizer n =>
    simp only [RefNode.get_parameter, EqualizerNode.get_parameter] at hget
    simp only [RefNode.set_parameter, EqualizerNode.set_parameter]
    cases hsp : splitChar '_' name.data with
    | nil => simp [Except.map]
    | cons p0 t0 =>
      cases t0 with
      | nil => simp [Except.map]
      | cons p1 t1 =>
        cases t1 with
        | nil => simp [Except.map]
        | cons p2 t2 =>
          cases t2 with
          | cons p3 t3 => simp [Except.map]
          | nil =>
            rw [hsp] at hget
            by_cases hb : p0 = "band".data
            · cases hpu : parseUsize p1 with
              | none => simp [hb, hpu, Except.map]
              | some band_idx =>
                by_cases hlen : band_idx ≥ n.bands.length
                · simp [hb, hpu, hlen, Except.map]
                · obtain ⟨band, hband⟩ : ∃ b, n.bands.get? band_idx = some b := by
                    rw [List.get?_eq_get (by omega)]
                    exact ⟨_, rfl⟩
                  simp only [hb, if_true, hpu, hband] at hget
                  by_cases hg : p2 = "gain".data
                  · simp [hg] at hget
                  · by_cases hf : p2 = "freq".data
                    · simp [hg, hf] at hget
                    · by_cases hq : p2 = "q".data
                      · simp [hg, hf, hq] at hget
                      · simp [hb, hpu, hlen, hg, hf, hq, Except.map]
            · simp [hb, Except.map]

/-- C4 amended witness: a gain node rejects the unknown name `"bogus"`. -/
theorem C4_amended_unknown_name_rejected_witness :
    RefNode.set_parameter constKernels (.gain (GainNode.new "g")) "bogus" 0
      = .error (.ParameterNotFound "bogus") :=
  C4_amended_unknown_name_rejected constKernels (.gain (GainNode.new "g"))
    "bogus" 0 rfl rfl

/-- C3 amended witness: both branches at the one-gain-node graph — a
missing id yields `NodeNotFound`, an unknown parameter name on the present
node yields the wrapped `ProcessingError`. -/
theorem C3_amended_set_parameter_errors_witness :
    AudioGraph.set_parameter constKernels c3Graph "zz" "gain" 0
        = (c3Graph, .error (.NodeNotFound "zz"))
    ∧ AudioGraph.set_parameter constKernels c3Graph "g" "bogus" 0
        = (c3Graph, .error (.ProcessingError "Parameter 'bogus' not found")) :=
  ⟨(C3_amended_set_parameter_errors constKernels c3Graph "zz" "gain" 0).1 rfl,
   (C3_amended_set_parameter_errors constKernels c3Graph "g" "bogus" 0).2
     (.gain (GainNode.new "g")) (.ParameterNotFound "bogus") rfl rfl⟩

/-- A digit character is not an underscore. -/
theorem ne_underscore_of_isDigit (c : Char) (h : c.isDigit = true) :
    c ≠ '_' := by
  intro hc
  subst hc
  exact absurd h (by decide)

/-- Splitting a composite band-parameter name recovers its three parts. -/
theorem splitChar_bandParamName (i : ℕ) (suffix : String)
    (hsuf : ∀ c ∈ suffix.data, c ≠ '_') :
    splitChar '_' (bandParamName i suffix).data
      = ["band".data, natDigits i, suffix.data] := by
  have h1 : (bandParamName i suffix).data
      = "band".data ++ '_' :: (natDigits i ++ '_' :: suffix.data) := by
    show "band_".data ++ natDigits i ++ '_' :: suffix.data = _
    rfl
  rw [h1]
  rw [splitChar_append_sep '_' "band".data _ (by decide)]
  rw [splitChar_append_sep '_' (natDigits i) _ (fun c hc =>
    ne_underscore_of_isDigit c (by
      have := natDigits_all_digit i
      exact List.all_eq_true.mp this c hc))]
  rw [splitChar_no_sep '_' suffix.data hsuf]

/-- `listModify` preserves length. -/
theorem listModify_length (f : α → α) :
    ∀ (i : ℕ) (l : List α), (listModify f i l).length = l.length := by
  intro i
  induction i with
  | zero =>
    intro l
    cases l <;> rfl
  | succ m ih =>
    intro l
    cases l with
    | nil => rfl
    | cons x xs =>
      show (x :: listModify f m xs).length = _
      simp [ih xs]

/-- `listModify` applies `f` at the modified index. -/
theorem listModify_get?_self (f : α → α) :
    ∀ (i : ℕ) (l : List α), (listModify f i l).get? i = (l.get? i).map f := by
  intro i
  induction i with
  | zero =>
    intro l
    cases l <;> rfl
  | succ m ih =>
    intro l
    cases l with
    | nil => rfl
    | cons x xs => exact ih xs

/-- `update_filters` keeps every band's `frequency`, `gain_db` and `q`
(it only replaces the filter coefficients). -/
theorem update_filters_get? (K : Kernels) (n : EqualizerNode) (i : ℕ)
    (band : EQBand) (h : n.bands.get? i = some band) :
    ∃ band', ((EqualizerNode.update_filters K n).bands).get? i = some band'
      ∧ band'.gain_db = band.gain_db ∧ band'.frequency = band.frequency
      ∧ band'.q = band.q := by
  simp only [EqualizerNode.update_filters, List.get?_map, h, Option.map_some]
  exact ⟨_, rfl, rfl, rfl, rfl⟩

/-- Equalizer round trip for `band_i_gain`: set clamps into [−24, 24] and
get reads it back (filter-coefficient rederivation does not touch it). -/
theorem eq_roundtrip_gain (K : Kernels) (n : EqualizerNode) (i : ℕ) (x : ℚ)
    (hi : i < n.bands.length) :
    (EqualizerNode.set_parameter K n (bandParamName i "gain") x).map
      (fun m => m.get_parameter (bandParamName i "gain"))
      = .ok (some (rclamp x (-24) 24)) := by
  have hsplit := splitChar_bandParamName i "gain" (by decide)
  have hparse := parseUsize_natDigits i
  obtain ⟨band, hband⟩ : ∃ b, n.bands.get? i = some b :=
    ⟨n.bands.get ⟨i, hi⟩, List.get?_eq_get hi⟩
  have hmod := listModify_get?_self
    (fun b => { b with gain_db := rclamp x (-24) 24 }) i n.bands
  rw [hband, Option.map_some'] at hmod
  obtain ⟨band', hband', hg, hf, hq⟩ := update_filters_get? K
    { n with bands := listModify (fun b => { b with gain_db := rclamp x (-24) 24 }) i n.bands }
    i _ hmod
  simp only [EqualizerNode.set_parameter, EqualizerNode.get_parameter,
    hsplit, hparse, if_pos rfl, if_neg (not_le.mpr hi), Except.map]
  rw [List.get?_eq_getElem?] at hband'
  simp [hband', hg]

/-- Equalizer round trip for `band_i_freq` (clamped into [20, 20000]). -/
theorem eq_roundtrip_freq (K : Kernels) (n : EqualizerNode) (i : ℕ) (x : ℚ)
    (hi : i < n.bands.length) :
    (EqualizerNode.set_parameter K n (bandParamName i "freq") x).map
      (fun m => m.get_parameter (bandParamName i "freq"))
      = .ok (some (rclamp x 20 20000)) := by
  have hsplit := splitChar_bandParamName i "freq" (by decide)
  have hparse := parseUsize_natDigits i
  obtain ⟨band, hband⟩ : ∃ b, n.bands.get? i = some b :=
    ⟨n.bands.get ⟨i, hi⟩, List.get?_eq_get hi⟩
  have hmod := listModify_get?_self
    (fun b => { b with frequency := rclamp x 20 20000 }) i n.bands
  rw [hband, Option.map_some'] at hmod
  obtain ⟨band', hband', hg, hf, hq⟩ := update_filters_get? K
    { n with bands := listModify (fun b => { b with frequency := rclamp x 20 20000 }) i n.bands }
    i _ hmod
  simp only [EqualizerNode.set_parameter, EqualizerNode.get_parameter,
    hsplit, hparse, if_pos rfl, if_neg (not_le.mpr hi), Except.map]
  rw [List.get?_eq_getElem?] at hband'
  simp [hband', hf]

/-- Equalizer round trip for `band_i_q` (clamped into [0.1, 10]). -/
theorem eq_roundtrip_q (K : Kernels) (n : EqualizerNode) (i : ℕ) (x : ℚ)
    (hi : i < n.bands.length) :
    (EqualizerNode.set_parameter K n (bandParamName i "q") x).map
      (fun m => m.get_parameter (bandParamName i "q"))
      = .ok (some (rclamp x (1 / 10) 10)) := by
  have hsplit := splitChar_bandParamName i "q" (by decide)
  have hparse := parseUsize_natDigits i
  obtain ⟨band, hband⟩ : ∃ b, n.bands.get? i = some b :=
    ⟨n.bands.get ⟨i, hi⟩, List.get?_eq_get hi⟩
  have hmod := listModify_get?_self
    (fun b => { b with q := rclamp x (1 / 10) 10 }) i n.bands
  rw [hband, Option.map_some'] at hmod
  obtain ⟨band', hband', hg, hf, hq⟩ := update_filters_get? K
    { n with bands := listModify (fun b => { b with q := rclamp x (1 / 10) 10 }) i n.bands }
    i _ hmod
  simp only [EqualizerNode.set_parameter, EqualizerNode.get_parameter,
    hsplit, hparse, if_pos rfl, if_neg (not_le.mpr hi), Except.map]
  rw [List.get?_eq_getElem?] at hband'
  simp only [one_div] at hband'
  simp [hband', hq]

/-- C5 (amended): for every reference node and every declared parameter,
`set(name, x)` then `get(name)` returns `clamp(x, min, max)` of the
descriptor's range — *except* `ChannelStripNode`'s boolean `mute` and
`solo`, which store `x > 0.5` and read back the boolean encoding
`1.0`/`0.0` (so the claim's clamp round trip fails exactly there).
`MixerNode` declares no parameters, so nothing is claimed of it. -/
theorem C5_amended_clamp_roundtrip (K : Kernels) (x : ℚ) :
    (∀ n : GainNode, (n.set_parameter K "gain" x).map
        (fun m => m.get_parameter "gain") = .ok (some (rclamp x (-60) 24)))
    ∧ (∀ n : PanNode, (n.set_parameter "pan" x).map
        (fun m => m.get_parameter "pan") = .ok (some (rclamp x (-1) 1)))
    ∧ (∀ n : CompressorNode,
        (n.set_parameter "threshold" x).map
            (fun m => m.get_parameter "threshold")
          = .ok (some (rclamp x (-60) 0))
        ∧ (n.set_parameter "ratio" x).map (fun m => m.get_parameter "ratio")
          = .ok (some (rclamp x 1 20))
        ∧ (n.set_parameter "attack" x).map (fun m => m.get_parameter "attack")
          = .ok (some (rclamp x (1 / 10) 100))
        ∧ (n.set_parameter "release" x).map
            (fun m => m.get_parameter "release")
          = .ok (some (rclamp x 10 1000))
        ∧ (n.set_parameter "makeup" x).map (fun m => m.get_parameter "makeup")
          = .ok (some (rclamp x 0 24)))
    ∧ (∀ n : ChannelStripNode,
        (n.set_parameter K "gain" x).map (fun m => m.get_parameter "gain")
          = .ok (some (rclamp x (-60) 24))
        ∧ (n.set_parameter K "pan" x).map (fun m => m.get_parameter "pan")
          = .ok (some (rclamp x (-1) 1))
        ∧ (n.set_parameter K "mute" x).map (fun m => m.get_parameter "mute")
          = .ok (some (if x > 5 / 10 then 1 else 0))
        ∧ (n.set_parameter K "solo" x).map (fun m => m.get_parameter "solo")
          = .ok (some (if x > 5 / 10 then 1 else 0)))
    ∧ (∀ (n : EqualizerNode) (i : ℕ), i < n.bands.length →
        (EqualizerNode.set_parameter K n (bandParamName i "gain") x).map
            (fun m => m.get_parameter (bandParamName i "gain"))
          = .ok (some (rclamp x (-24) 24))
        ∧ (EqualizerNode.set_parameter K n (bandParamName i "freq") x).map
            (fun m => m.get_parameter (bandParamName i "freq"))
          = .ok (some (rclamp x 20 20000))
        ∧ (EqualizerNode.set_parameter K n (bandParamName i "q") x).map
            (fun m => m.get_parameter (bandParamName i "q"))
          = .ok (some (rclamp x (1 / 10) 10))) := by
  refine ⟨?_, ?_, ?_, ?_, ?_⟩
  · intro n
    simp [GainNode.set_parameter, GainNode.get_parameter, GainNode.update_gain,
      Except.map]
  · intro n
    simp [PanNode.set_parameter, PanNode.get_parameter, Except.map]
  · intro n
    refine ⟨?_, ?_, ?_, ?_, ?_⟩ <;>
      simp [CompressorNode.set_parameter, CompressorNode.get_parameter,
        Except.map]
  · intro n
    refine ⟨?_, ?_, ?_, ?_⟩ <;>
      simp [ChannelStripNode.set_parameter, ChannelStripNode.get_parameter,
        ChannelStripNode.update_gain, Except.map]
  · intro n i hi
    exact ⟨eq_roundtrip_gain K n i x hi, eq_roundtrip_freq K n i x hi,
      eq_roundtrip_q K n i x hi⟩

/-- C5 amended witness: clamping at a gain node (x = 200 → 24) and the
band-0 gain of a fresh 3-band equalizer. -/
theorem C5_amended_clamp_roundtrip_witness :
    ((GainNode.new "g1").set_parameter constKernels "gain" 200).map
        (fun m => m.get_parameter "gain") = .ok (some (rclamp 200 (-60) 24))
    ∧ (EqualizerNode.set_parameter constKernels (EqualizerNode.new "e1" 3)
        (bandParamName 0 "gain") 200).map
        (fun m => m.get_parameter (bandParamName 0 "gain"))
      = .ok (some (rclamp 200 (-24) 24)) :=
  ⟨(C5_amended_clamp_roundtrip constKernels 200).1 (GainNode.new "g1"),
   ((C5_amended_clamp_roundtrip constKernels 200).2.2.2.2
     (EqualizerNode.new "e1" 3) 0 (by simp [EqualizerNode.new])).1⟩

/-! ## Reachability and DFS completeness (for C6) -/

/-- One hop along an existing connection. -/
def edgeStep (conns : List Connection) (a b : String) : Prop :=
  ∃ c ∈ conns, c.from_node = a ∧ c.to_node = b

/-- `b` is reachable from `a` by following outgoing edges (zero or more
hops). -/
def Reaches (conns : List Connection) : String → String → Prop :=
  Relation.ReflTransGen (edgeStep conns)

/-- Reachability in exactly `n` hops. -/
inductive ReachN (conns : List Connection) : ℕ → String → String → Prop
  | refl (a : String) : ReachN conns 0 a a
  | head {a b c : String} {n : ℕ} : edgeStep conns a b →
      ReachN conns n b c → ReachN conns (n + 1) a c

/-- Reachability gives a hop count. -/
theorem reaches_exists_reachN (conns : List Connection) (a b : String)
    (h : Reaches conns a b) : ∃ n, ReachN conns n a b := by
  induction h using Relation.ReflTransGen.head_induction_on with
  | refl => exact ⟨0, ReachN.refl b⟩
  | head hstep _ ih =>
    obtain ⟨n, hn⟩ := ih
    exact ⟨n + 1, ReachN.head hstep hn⟩

/-- A hop's target is among the DFS pushes of its source. -/
theorem edgeStep_mem_outgoing (conns : List Connection) (a b : String)
    (h : edgeStep conns a b) : b ∈ outgoingTargets conns a := by
  obtain ⟨c, hc, hfrom, hto⟩ := h
  exact hto ▸ List.mem_map_of_mem _ (List.mem_filter.mpr
    ⟨hc, by simp [hfrom]⟩)

/-- A hop-counted path is a reachability path. -/
theorem reachN_to_reaches (conns : List Connection) :
    ∀ {n : ℕ} {a b : String}, ReachN conns n a b → Reaches conns a b := by
  intro n a b h
  induction h with
  | refl => exact Relation.ReflTransGen.refl
  | head hstep _ ih => exact Relation.ReflTransGen.head hstep ih

/-- If a reachability witness sits inside the visited set, some node of
the remaining stack also reaches the target: the DFS closure invariant
lets the path be rotated out of the visited set, by induction on its hop
count. -/
theorem visited_witness_to_stack (conns : List Connection) (target : String)
    (visited rest : List String) (current : String)
    (hcur : current ∈ visited)
    (hne : ∀ v ∈ visited, v ≠ target)
    (hclosed : ∀ v ∈ visited, ∀ c ∈ conns, c.from_node = v →
      c.to_node ∈ visited ∨ c.to_node ∈ current :: rest) :
    ∀ (n : ℕ) (v : String), v ∈ visited → ReachN conns n v target →
      ∃ s ∈ rest, Reaches conns s target := by
  intro n
  induction n using Nat.strong_induction_on with
  | _ n ih =>
    intro v hv hreach
    cases hreach with
    | refl => exact absurd rfl (hne _ hv)
    | head hstep htail =>
      rename_i w m
      obtain ⟨c, hc, hfrom, hto⟩ := hstep
      rcases hclosed v hv c hc hfrom with hw | hw
      · exact ih m (by omega) w (hto ▸ hw) htail
      · rw [hto] at hw
        rcases List.mem_cons.mp hw with hcu | hr
        · exact ih m (by omega) w (hcu ▸ hcur) htail
        · exact ⟨w, hr, reachN_to_reaches conns htail⟩

/-- Completeness of the cycle-probe DFS: whenever some stack element
reaches the target along the connection list, the DFS returns `true`.
`f` is the count of universe elements not yet visited; the invariants are
that no visited node is the target and that every edge out of a visited
node lands in the visited set or on the stack. -/
theorem cycleDfs_complete (conns : List Connection) (target : String)
    (U : List String) (hU : ∀ c ∈ conns, c.to_node ∈ U) :
    ∀ (f : ℕ) (stack : List String), ∀ (visited : List String)
      (hs : ∀ s ∈ stack, s ∈ U),
      (U.filter (fun s => s ∉ visited)).length = f →
      (∀ v ∈ visited, v ≠ target) →
      (∀ v ∈ visited, ∀ c ∈ conns, c.from_node = v →
        c.to_node ∈ visited ∨ c.to_node ∈ stack) →
      (∃ s ∈ stack, Reaches conns s target) →
      cycleDfs conns target U hU stack visited hs = true := by
  intro f
  induction f using Nat.strong_induction_on with
  | _ f ihf =>
    intro stack
    induction stack with
    | nil =>
      intro visited hs hf hne hclosed hwit
      obtain ⟨s, hs', _⟩ := hwit
      cases hs'
    | cons current rest ihs =>
      intro visited hs hf hne hclosed hwit
      rw [cycleDfs]
      by_cases hct : current = target
      · simp [hct]
      · rw [if_neg hct]
        by_cases hcv : current ∈ visited
        · rw [dif_pos hcv]
          have hclosed' : ∀ v ∈ visited, ∀ c ∈ conns, c.from_node = v →
              c.to_node ∈ visited ∨ c.to_node ∈ rest := by
            intro v hv c hc hfrom
            rcases hclosed v hv c hc hfrom with h | h
            · exact Or.inl h
            · rcases List.mem_cons.mp h with h | h
              · exact Or.inl (h ▸ hcv)
              · exact Or.inr h
          have hclosed'' : ∀ v ∈ visited, ∀ c ∈ conns, c.from_node = v →
              c.to_node ∈ visited ∨ c.to_node ∈ current :: rest := by
            intro v hv c hc hfrom
            rcases hclosed' v hv c hc hfrom with h | h
            · exact Or.inl h
            · exact Or.inr (List.mem_cons_of_mem _ h)
          have hwit' : ∃ s ∈ rest, Reaches conns s target := by
            obtain ⟨s, hsmem, hreach⟩ := hwit
            rcases List.mem_cons.mp hsmem with rfl | hsr
            · obtain ⟨k, hk⟩ := reaches_exists_reachN conns s target hreach
              exact visited_witness_to_stack conns target visited rest s
                hcv hne hclosed'' k s hcv hk
            · exact ⟨s, hsr, hreach⟩
          exact ihs visited _ hf hne hclosed' hwit'
        · rw [dif_neg hcv]
          have hcurU : current ∈ U := hs current (List.mem_cons_self _ _)
          have hlt : (U.filter
              (fun s => s ∉ current :: visited)).length < f := by
            rw [← hf]
            exact length_filter_visited_lt U visited current hcurU hcv
          apply ihf _ hlt
          · rfl
          · intro v hv
            rcases List.mem_cons.mp hv with hveq | hv
            · subst hveq
              exact hct
            · exact hne v hv
          · intro v hv c hc hfrom
            rcases List.mem_cons.mp hv with hveq | hv
            · subst hveq
              refine Or.inr (List.mem_append.mpr (Or.inl ?_))
              rw [List.mem_reverse]
              exact edgeStep_mem_outgoing conns v c.to_node
                ⟨c, hc, hfrom, rfl⟩
            · rcases hclosed v hv c hc hfrom with h | h
              · exact Or.inl (List.mem_cons_of_mem _ h)
              · rcases List.mem_cons.mp h with h | h
                · exact Or.inl (h ▸ List.mem_cons_self _ _)
                · exact Or.inr (List.mem_append.mpr (Or.inr h))
          · obtain ⟨s, hsmem, hreach⟩ := hwit
            rcases List.mem_cons.mp hsmem with rfl | hsr
            · rcases (Relation.ReflTransGen.cases_head hreach) with rfl | hstep
              · exact absurd rfl hct
              · obtain ⟨w, hsw, hwt⟩ := hstep
                refine ⟨w, List.mem_append.mpr (Or.inl ?_), hwt⟩
                rw [List.mem_reverse]
                exact edgeStep_mem_outgoing conns s w hsw
            · exact ⟨s, List.mem_append.mpr (Or.inr hsr), hreach⟩

/-- C6 (confirmed): when the proposed connection's `to_node` reaches its
`from_node` along the existing edges (both endpoints being known nodes),
`connect` rejects with `CycleDetected` and returns the graph unchanged —
in particular `connections` and `execution_order` keep their pre-call
values. -/
theorem C6_cycle_rejected_no_mutation (g : AudioGraph) (conn : Connection)
    (hf : (alookup g.nodes conn.from_node).isSome)
    (ht : (alookup g.nodes conn.to_node).isSome)
    (hreach : Reaches g.connections conn.to_node conn.from_node) :
    g.connect conn = some (g, some .CycleDetected) := by
  obtain ⟨vf, hvf⟩ := Option.isSome_iff_exists.mp hf
  obtain ⟨vt, hvt⟩ := Option.isSome_iff_exists.mp ht
  have hcyc : g.would_create_cycle conn = true := by
    rw [AudioGraph.would_create_cycle]
    exact cycleDfs_complete g.connections conn.from_node _ _ _ _ [] _ rfl
      (by simp) (by simp) ⟨conn.to_node, by simp, hreach⟩
  simp [AudioGraph.connect, hvf, hvt, hcyc]

/-- The two-node graph with the single edge a → b. -/
def c6Graph : AudioGraph :=
  ⟨[("a", .gain (GainNode.new "a")), ("b", .gain (GainNode.new "b"))],
   [Connection.simple "a" "b"], ["a", "b"], []⟩

/-- C6 witness: adding b → a on top of a → b is rejected with
`CycleDetected` and the graph is unchanged. -/
theorem C6_cycle_rejected_no_mutation_witness :
    c6Graph.connect (Connection.simple "b" "a")
      = some (c6Graph, some .CycleDetected) :=
  C6_cycle_rejected_no_mutation c6Graph (Connection.simple "b" "a") rfl rfl
    (Relation.ReflTransGen.single
      ⟨Connection.simple "a" "b", by simp [c6Graph], rfl, rfl⟩)

/-! ## Kahn soundness (for C7)

The invariant: a node's current in-degree is its total in-edge count minus
the edges coming from already-output nodes, every queued or output node
has non-positive degree (hence, degrees being counts minus consumed
counts, exactly zero consumed from inside the output), and the output is
topologically ordered so far. -/

/-- Lookup over a constant-initialized association list. -/
theorem alookup_map_const (keys : List String) (c : α) (v : String) :
    alookup (keys.map (fun k => (k, c))) v
      = if v ∈ keys then some c else none := by
  induction keys with
  | nil => simp [alookup]
  | cons k rest ih =>
    by_cases hv : v = k
    · simp [alookup, hv]
    · rw [List.map_cons, alookup, if_neg hv, ih]
      by_cases hm : v ∈ rest
      · rw [if_pos hm, if_pos (List.mem_cons_of_mem k hm)]
      · rw [if_neg hm, if_neg (by
          intro hx
          rcases List.mem_cons.mp hx with hx | hx
          · exact hv hx
          · exact hm hx)]

/-- `aset` preserves the key sequence. -/
theorem aset_map_fst (k : String) (v : α) :
    ∀ m : List (String × α), (aset k v m).map (fun p => p.1)
      = m.map (fun p => p.1) := by
  intro m
  induction m with
  | nil => rfl
  | cons p rest ih =>
    rw [aset]
    split
    · rename_i h
      simp [← h]
    · simp [ih]

/-- `aset` on a present key updates the looked-up value. -/
theorem alookup_aset_self (k : String) (v : α) :
    ∀ (m : List (String × α)) (d : α), alookup m k = some d →
      alookup (aset k v m) k = some v := by
  intro m
  induction m with
  | nil => intro d h; cases h
  | cons p rest ih =>
    intro d h
    obtain ⟨pk, pv⟩ := p
    by_cases hk : k = pk
    · rw [aset, if_pos hk.symm, alookup, if_pos hk]
    · rw [alookup, if_neg hk] at h
      rw [aset, if_neg (fun hp => hk hp.symm), alookup, if_neg hk]
      exact ih d h

/-- `aset` leaves other keys' lookups unchanged. -/
theorem alookup_aset_ne (k k' : String) (v : α) (hne : k' ≠ k) :
    ∀ m : List (String × α), alookup (aset k v m) k' = alookup m k' := by
  intro m
  induction m with
  | nil => rfl
  | cons p rest ih =>
    obtain ⟨pk, pv⟩ := p
    by_cases hk : pk = k
    · rw [aset, if_pos hk, alookup, alookup, if_neg (hk ▸ hne)]
      rw [if_neg (hk ▸ hne)]
    · rw [aset, if_neg hk, alookup, alookup]
      split
      · rfl
      · exact ih

/-- A present lookup means the key occurs in the key sequence. -/
theorem mem_fst_of_alookup (k : String) (d : α) :
    ∀ m : List (String × α), alookup m k = some d →
      k ∈ m.map (fun p => p.1) := by
  intro m
  induction m with
  | nil => intro h; cases h
  | cons p rest ih =>
    intro h
    rw [alookup] at h
    split at h
    · rename_i he
      simp [he]
    · simp [ih h]

/-- With unique keys, membership determines the lookup. -/
theorem alookup_of_mem_nodup (k : String) (d : α) :
    ∀ m : List (String × α), (m.map (fun p => p.1)).Nodup →
      (k, d) ∈ m → alookup m k = some d := by
  intro m
  induction m with
  | nil => intro _ h; cases h
  | cons p rest ih =>
    intro hnd h
    simp only [List.map_cons, List.nodup_cons] at hnd
    rcases List.mem_cons.mp h with he | hm
    · rw [← he, alookup, if_pos rfl]
    · have hk : k ≠ p.1 := by
        intro hk
        exact hnd.1 (hk ▸ List.mem_map_of_mem (fun q => q.1) hm)
      rw [alookup, if_neg hk]
      exact ih hnd.2 hm

/-- Number of connections into `v`. -/
def edgeCountInto (conns : List Connection) (v : String) : ℕ :=
  conns.countP (fun c => c.to_node = v)

/-- Number of connections into `v` whose source is already in `sorted`. -/
def consumed (conns : List Connection) (v : String)
    (sorted : List String) : ℕ :=
  conns.countP (fun c => decide (c.to_node = v ∧ c.from_node ∈ sorted))

/-- Splitting the decided conjunction in `consumed`'s predicate. -/
theorem countP_and_eq (rest : List Connection) (v : String)
    (S : List String) :
    rest.countP (fun c => decide (c.to_node = v)
        && decide (c.from_node ∈ S)) = consumed rest v S := by
  rw [consumed]
  apply List.countP_congr
  intro c _
  simp

/-- `consumed` never exceeds the in-edge count. -/
theorem consumed_le (conns : List Connection) (v : String)
    (sorted : List String) :
    consumed conns v sorted ≤ edgeCountInto conns v := by
  apply List.countP_mono_left
  intro c _ h
  simp only [decide_eq_true_eq] at h ⊢
  exact h.1

/-- A counting pigeonhole: if `p` implies `q` pointwise yet `q`'s count is
no larger, then `q` implies `p` on the list. -/
theorem countP_imp_of_count_le {α : Type} (p q : α → Bool) :
    ∀ l : List α, (∀ x ∈ l, p x = true → q x = true) →
      l.countP q ≤ l.countP p →
      ∀ x ∈ l, q x = true → p x = true := by
  intro l
  induction l with
  | nil => intro _ _ x hx; cases hx
  | cons a as ih =>
    intro himp h x hx hq
    rw [List.countP_cons, List.countP_cons] at h
    have hmono : as.countP p ≤ as.countP q :=
      List.countP_mono_left (fun y hy => himp y (List.mem_cons_of_mem a hy))
    rcases List.mem_cons.mp hx with rfl | hm
    · by_cases hp : p x = true
      · exact hp
      · exfalso
        have hq1 : (if q x = true then 1 else 0) = 1 := if_pos hq
        have hp0 : (if p x = true then 1 else 0) = 0 := if_neg hp
        omega
    · refine ih (fun y hy => himp y (List.mem_cons_of_mem a hy)) ?_ x hm hq
      by_cases hpa : p a = true
      · have := himp a (List.mem_cons_self a as) hpa
        rw [if_pos hpa, if_pos this] at h
        omega
      · rw [if_neg hpa] at h
        have : (if q a = true then 1 else 0) ≤ 1 := by
          split <;> omega
        omega

/-- When the counts agree, every in-edge's source is in `sorted`. -/
theorem preds_of_consumed_eq (conns : List Connection) (v : String)
    (sorted : List String)
    (h : consumed conns v sorted = edgeCountInto conns v) :
    ∀ c ∈ conns, c.to_node = v → c.from_node ∈ sorted := by
  intro c hc hto
  have himp : ∀ x ∈ conns,
      decide (x.to_node = v ∧ x.from_node ∈ sorted) = true →
      decide (x.to_node = v) = true := by
    intro x _ hx
    simp only [decide_eq_true_eq] at hx ⊢
    exact hx.1
  have hle : conns.countP (fun c => decide (c.to_node = v))
      ≤ conns.countP
        (fun c => decide (c.to_node = v ∧ c.from_node ∈ sorted)) := by
    rw [consumed, edgeCountInto] at h
    omega
  have := countP_imp_of_count_le
    (fun c => decide (c.to_node = v ∧ c.from_node ∈ sorted))
    (fun c => decide (c.to_node = v)) conns himp hle c hc
    (by simp [hto])
  simp only [decide_eq_true_eq] at this
  exact this.2

/-- Appending a fresh element to `sorted` consumes exactly the edges from
that element. -/
theorem consumed_snoc (conns : List Connection) (v u : String)
    (sorted : List String) (hu : u ∉ sorted) :
    consumed conns v (sorted ++ [u])
      = consumed conns v sorted
        + conns.countP (fun c => decide (c.from_node = u ∧ c.to_node = v)) := by
  induction conns with
  | nil => rfl
  | cons c rest ih =>
    simp only [consumed, List.countP_cons] at ih ⊢
    rw [ih]
    have hsplit : (if decide (c.to_node = v ∧ c.from_node ∈ sorted ++ [u])
          = true then 1 else 0)
        = (if decide (c.to_node = v ∧ c.from_node ∈ sorted) = true
            then 1 else 0)
          + (if decide (c.from_node = u ∧ c.to_node = v) = true
              then 1 else 0) := by
      by_cases hto : c.to_node = v
      · by_cases hfrom : c.from_node = u
        · rw [if_pos (by simp [hto, hfrom]),
            if_neg (by simp [hto, hfrom ▸ hu]), if_pos (by simp [hto, hfrom])]
        · by_cases hmem : c.from_node ∈ sorted
          · rw [if_pos (by simp [hto, hmem]), if_pos (by simp [hto, hmem]),
              if_neg (by simp [hfrom])]
          · rw [if_neg (by simp [hto, hmem, hfrom]),
              if_neg (by simp [hto, hmem]), if_neg (by simp [hfrom])]
      · rw [if_neg (by simp [hto]), if_neg (by simp [hto]),
          if_neg (by simp [hto])]
    omega

/-- The multiplicity of `v` among `u`'s DFS/adjacency targets is the
number of u → v connections. -/
theorem count_outgoingTargets (conns : List Connection) (u v : String) :
    (outgoingTargets conns u).count v
      = conns.countP (fun c => decide (c.from_node = u ∧ c.to_node = v)) := by
  rw [outgoingTargets, List.count_eq_countP, List.countP_map,
    List.countP_filter]
  apply List.countP_congr
  intro c _
  simp only [Function.comp_apply, beq_iff_eq, decide_eq_true_eq,
    Bool.and_eq_true, decide_eq_true_eq]
  constructor
  · rintro ⟨h1, h2⟩
    exact ⟨h2, h1⟩
  · rintro ⟨h1, h2⟩
    exact ⟨h2, h1⟩

/-- What the neighbor-decrement loop does: the key sequence is unchanged,
every degree drops by the neighbor multiplicity, and the "already output
or queued" set stays duplicate-free, inside `keys`, and at non-positive
degrees.  `sortedQ` is the output-so-far (including the node being
expanded); `q` the pending queue. -/
theorem processNeighbors_spec (keys sortedQ : List String) :
    ∀ (nbrs : List String) (inDeg : List (String × ℤ)) (q : List String)
      (st : List (String × ℤ) × List String),
      processNeighbors nbrs inDeg q = some st →
      inDeg.map (fun p => p.1) = keys →
      (∀ v ∈ nbrs, v ∈ keys) →
      (sortedQ ++ q).Nodup →
      (∀ v ∈ sortedQ ++ q, v ∈ keys) →
      (∀ v ∈ sortedQ ++ q, ∀ d, alookup inDeg v = some d → d ≤ 0) →
      (st.1.map (fun p => p.1) = keys)
      ∧ (∀ v, alookup st.1 v
          = (alookup inDeg v).map (fun d => d - (nbrs.count v : ℤ)))
      ∧ (sortedQ ++ st.2).Nodup
      ∧ (∀ v ∈ sortedQ ++ st.2, v ∈ keys)
      ∧ (∀ v ∈ sortedQ ++ st.2, ∀ d, alookup st.1 v = some d → d ≤ 0) := by
  intro nbrs
  induction nbrs with
  | nil =>
    intro inDeg q st hpn hfst _ hnd hmem hdeg
    simp only [processNeighbors, Option.some.injEq] at hpn
    subst hpn
    refine ⟨hfst, ?_, hnd, hmem, hdeg⟩
    intro v
    cases alookup inDeg v <;> simp
  | cons nbr rest ih =>
    intro inDeg q st hpn hfst hnbrs hnd hmem hdeg
    rw [processNeighbors] at hpn
    cases hd : alookup inDeg nbr with
    | none => rw [hd] at hpn; cases hpn
    | some d =>
      rw [hd] at hpn
      dsimp only at hpn
      have hnbrk : nbr ∈ keys := hnbrs nbr (List.mem_cons_self _ _)
      have hfst1 : (aset nbr (d - 1) inDeg).map (fun p => p.1) = keys := by
        rw [aset_map_fst]; exact hfst
      have hlook1 : alookup (aset nbr (d - 1) inDeg) nbr = some (d - 1) :=
        alookup_aset_self nbr (d - 1) inDeg d hd
      by_cases hz : d - 1 = 0
      · -- the neighbor is pushed
        rw [if_pos hz] at hpn
        have hfresh : nbr ∉ sortedQ ++ q := by
          intro hin
          have := hdeg nbr hin d hd
          omega
        have hnd1 : (sortedQ ++ (q ++ [nbr])).Nodup := by
          rw [← List.append_assoc]
          refine ((List.perm_append_singleton nbr (sortedQ ++ q)).nodup_iff).mpr ?_
          exact List.nodup_cons.mpr ⟨hfresh, hnd⟩
        have hmem1 : ∀ v ∈ sortedQ ++ (q ++ [nbr]), v ∈ keys := by
          intro v hv
          rw [← List.append_assoc] at hv
          rcases List.mem_append.mp hv with hv | hv
          · exact hmem v hv
          · rw [List.mem_singleton] at hv
            exact hv ▸ hnbrk
        have hdeg1 : ∀ v ∈ sortedQ ++ (q ++ [nbr]), ∀ e,
            alookup (aset nbr (d - 1) inDeg) v = some e → e ≤ 0 := by
          intro v hv e he
          by_cases hveq : v = nbr
          · rw [hveq, hlook1] at he
            injection he with he'
            omega
          · rw [alookup_aset_ne nbr v (d - 1) hveq] at he
            refine hdeg v ?_ e he
            rw [← List.append_assoc] at hv
            rcases List.mem_append.mp hv with hv | hv
            · exact hv
            · rw [List.mem_singleton] at hv
              exact absurd hv hveq
        obtain ⟨hf, hdec, hnd', hmem', hdeg'⟩ := ih (aset nbr (d - 1) inDeg)
          (q ++ [nbr]) st hpn hfst1
          (fun v hv => hnbrs v (List.mem_cons_of_mem _ hv)) hnd1 hmem1 hdeg1
        refine ⟨hf, ?_, hnd', hmem', hdeg'⟩
        intro v
        rw [hdec v]
        by_cases hveq : v = nbr
        · rw [hveq, hlook1, hd]
          simp only [Option.map_some', Option.some.injEq,
            List.count_cons_self]
          push_cast
          ring
        · rw [alookup_aset_ne nbr v (d - 1) hveq,
            List.count_cons_of_ne hveq]
      · -- no push
        rw [if_neg hz] at hpn
        have hdeg1 : ∀ v ∈ sortedQ ++ q, ∀ e,
            alookup (aset nbr (d - 1) inDeg) v = some e → e ≤ 0 := by
          intro v hv e he
          by_cases hveq : v = nbr
          · rw [hveq, hlook1] at he
            injection he with he'
            have := hdeg nbr (hveq ▸ hv) d hd
            omega
          · rw [alookup_aset_ne nbr v (d - 1) hveq] at he
            exact hdeg v hv e he
        obtain ⟨hf, hdec, hnd', hmem', hdeg'⟩ := ih (aset nbr (d - 1) inDeg)
          q st hpn hfst1
          (fun v hv => hnbrs v (List.mem_cons_of_mem _ hv)) hnd hmem hdeg1
        refine ⟨hf, ?_, hnd', hmem', hdeg'⟩
        intro v
        rw [hdec v]
        by_cases hveq : v = nbr
        · rw [hveq, hlook1, hd]
          simp only [Option.map_some', Option.some.injEq,
            List.count_cons_self]
          push_cast
          ring
        · rw [alookup_aset_ne nbr v (d - 1) hveq,
            List.count_cons_of_ne hveq]

/-- Soundness of the Kahn worklist: starting from a state satisfying the
invariant (degrees = in-edges minus edges from the output, queued/output
nodes at non-positive degree, output topologically ordered), a successful
run yields a duplicate-free output, inside `keys`, in which every
connection's source precedes its target whenever the target was output. -/
theorem kahnLoop_sound (conns : List Connection) (keys : List String)
    (adj : List (String × List String))
    (hadj : ∀ u, alookup adj u
      = if u ∈ keys then some (outgoingTargets conns u) else none)
    (hconnTo : ∀ c ∈ conns, c.to_node ∈ keys) :
    ∀ (N : ℕ) (queue : List String) (inDeg : List (String × ℤ))
      (sorted out : List String),
      degSum inDeg + queue.length ≤ N →
      kahnLoop adj queue inDeg sorted = some out →
      (sorted ++ queue).Nodup →
      (∀ v ∈ sorted ++ queue, v ∈ keys) →
      inDeg.map (fun p => p.1) = keys →
      (∀ v ∈ keys, alookup inDeg v
        = some ((edgeCountInto conns v : ℤ) - consumed conns v sorted)) →
      (∀ v ∈ sorted ++ queue, ∀ d, alookup inDeg v = some d → d ≤ 0) →
      (∀ v ∈ sorted, ∀ c ∈ conns, c.to_node = v →
        c.from_node ∈ sorted
        ∧ sorted.indexOf c.from_node < sorted.indexOf v) →
      out.Nodup ∧ (∀ v ∈ out, v ∈ keys)
      ∧ (∀ v ∈ out, ∀ c ∈ conns, c.to_node = v →
          c.from_node ∈ out ∧ out.indexOf c.from_node < out.indexOf v) := by
  intro N
  induction N with
  | zero =>
    intro queue inDeg sorted out hN hkl hnd hmem _ _ _ hpred
    have hq : queue = [] := by
      cases queue with
      | nil => rfl
      | cons a b => simp at hN
    subst hq
    rw [kahnLoop] at hkl
    injection hkl with hkl
    subst hkl
    simp only [List.append_nil] at hnd hmem
    exact ⟨hnd, hmem, hpred⟩
  | succ N ihN =>
    intro queue inDeg sorted out hN hkl hnd hmem hfst hdegEq hdeg hpred
    cases queue with
    | nil =>
      rw [kahnLoop] at hkl
      injection hkl with hkl
      subst hkl
      simp only [List.append_nil] at hnd hmem
      exact ⟨hnd, hmem, hpred⟩
    | cons node_id qrest =>
      have hnodek : node_id ∈ keys :=
        hmem node_id (List.mem_append.mpr (Or.inr (List.mem_cons_self _ _)))
      have hnodesorted : node_id ∉ sorted := by
        rcases List.nodup_append.mp hnd with ⟨_, _, hdis⟩
        intro hin
        exact hdis hin (List.mem_cons_self _ _)
      have hshape : sorted ++ node_id :: qrest
          = (sorted ++ [node_id]) ++ qrest := by
        simp
      rw [kahnLoop, hadj node_id, if_pos hnodek] at hkl
      dsimp only at hkl
      -- the match on processNeighbors
      rcases hpn : processNeighbors (outgoingTargets conns node_id) inDeg
          qrest with _ | st
      · rw [hpn] at hkl
        cases hkl
      · rw [hpn] at hkl
        dsimp only at hkl
        -- invariants for the neighbor loop, with output prefix sorted ++ [node_id]
        have hnbrsk : ∀ v ∈ outgoingTargets conns node_id, v ∈ keys := by
          intro v hv
          obtain ⟨c, hc, rfl⟩ := List.mem_map.mp hv
          exact hconnTo c (List.mem_of_mem_filter hc)
        have hnd0 : ((sorted ++ [node_id]) ++ qrest).Nodup := by
          rw [← hshape]
          exact hnd
        have hmem0 : ∀ v ∈ (sorted ++ [node_id]) ++ qrest, v ∈ keys := by
          rw [← hshape]
          exact hmem
        have hdeg0 : ∀ v ∈ (sorted ++ [node_id]) ++ qrest, ∀ d,
            alookup inDeg v = some d → d ≤ 0 := by
          rw [← hshape]
          exact hdeg
        obtain ⟨hf, hdec, hnd', hmem', hdeg'⟩ := processNeighbors_spec keys
          (sorted ++ [node_id]) (outgoingTargets conns node_id) inDeg qrest
          st hpn hfst hnbrsk hnd0 hmem0 hdeg0
        -- the popped node's in-edges are all consumed: its degree is 0
        have hdeg_node := hdeg node_id
          (List.mem_append.mpr (Or.inr (List.mem_cons_self _ _)))
        have hdegEq_node := hdegEq node_id hnodek
        have hzero : (edgeCountInto conns node_id : ℤ)
            - consumed conns node_id sorted ≤ 0 :=
          hdeg_node _ hdegEq_node
        have hconsle := consumed_le conns node_id sorted
        have hcons_eq : consumed conns node_id sorted
            = edgeCountInto conns node_id := by omega
        have hpreds_node := preds_of_consumed_eq conns node_id sorted hcons_eq
        -- the new degree equation w.r.t. sorted ++ [node_id]
        have hdegEq' : ∀ v ∈ keys, alookup st.1 v
            = some ((edgeCountInto conns v : ℤ)
              - consumed conns v (sorted ++ [node_id])) := by
          intro v hv
          rw [hdec v, hdegEq v hv, Option.map_some']
          rw [consumed_snoc conns v node_id sorted hnodesorted]
          rw [count_outgoingTargets conns node_id v]
          push_cast
          ring_nf
        -- the extended output is topologically ordered
        have hpred' : ∀ v ∈ sorted ++ [node_id], ∀ c ∈ conns,
            c.to_node = v → c.from_node ∈ sorted ++ [node_id]
            ∧ (sorted ++ [node_id]).indexOf c.from_node
              < (sorted ++ [node_id]).indexOf v := by
          intro v hv c hc hto
          rcases List.mem_append.mp hv with hv | hv
          · obtain ⟨hfm, hidx⟩ := hpred v hv c hc hto
            refine ⟨List.mem_append.mpr (Or.inl hfm), ?_⟩
            rw [List.indexOf_append_of_mem hfm,
              List.indexOf_append_of_mem hv]
            exact hidx
          · rw [List.mem_singleton] at hv
            subst hv
            have hfm : c.from_node ∈ sorted := hpreds_node c hc hto
            refine ⟨List.mem_append.mpr (Or.inl hfm), ?_⟩
            rw [List.indexOf_append_of_mem hfm,
              List.indexOf_append_of_not_mem hnodesorted,
              List.indexOf_cons_self]
            have := List.indexOf_lt_length.mpr hfm
            omega
        -- measure for the recursive call
        have hmeas := processNeighbors_measure
          (outgoingTargets conns node_id) inDeg qrest st.1 st.2
          (by rw [hpn])
        exact ihN st.2 st.1 (sorted ++ [node_id]) out
          (by simp only [List.length_cons] at hN; omega) hkl hnd' hmem' hf
          hdegEq' hdeg' hpred'

/-- `aset` on an absent key is the identity. -/
theorem aset_of_alookup_none (k : String) (v : α) :
    ∀ m : List (String × α), alookup m k = none → aset k v m = m := by
  intro m
  induction m with
  | nil => intro _; rfl
  | cons p rest ih =>
    intro h
    obtain ⟨pk, pv⟩ := p
    rw [alookup] at h
    split at h
    · cases h
    · rename_i hk
      rw [aset, if_neg (fun hp => hk hp.symm), ih h]

/-- `outgoingTargets` over a cons. -/
theorem outgoingTargets_cons (c : Connection) (rest : List Connection)
    (u : String) :
    outgoingTargets (c :: rest) u
      = if c.from_node = u then c.to_node :: outgoingTargets rest u
        else outgoingTargets rest u := by
  rw [outgoingTargets, List.filter_cons]
  split
  · rename_i h
    rw [if_pos (by simpa using h)]
    rfl
  · rename_i h
    rw [if_neg (by simpa using h)]
    rfl

/-- What a successful `in_degree`/`adj_list` build produces: the key
sequences are unchanged, each in-degree gains the number of edges into
its key, each adjacency list gains the targets of its key's outgoing
edges in order — and every connection's endpoints are present keys. -/
theorem buildLoop_spec :
    ∀ (conns : List Connection) (inDeg : List (String × ℤ))
      (adj : List (String × List String))
      (out : List (String × ℤ) × List (String × List String)),
      buildLoop conns inDeg adj = some out →
      out.1.map (fun p => p.1) = inDeg.map (fun p => p.1)
      ∧ out.2.map (fun p => p.1) = adj.map (fun p => p.1)
      ∧ (∀ v, alookup out.1 v
          = (alookup inDeg v).map (fun d => d + (edgeCountInto conns v : ℤ)))
      ∧ (∀ u, alookup out.2 u
          = (alookup adj u).map (fun l => l ++ outgoingTargets conns u))
      ∧ (∀ c ∈ conns, (alookup inDeg c.to_node).isSome
          ∧ (alookup adj c.from_node).isSome) := by
  intro conns
  induction conns with
  | nil =>
    intro inDeg adj out h
    simp only [buildLoop, Option.some.injEq] at h
    subst h
    refine ⟨rfl, rfl, ?_, ?_, fun c hc => absurd hc (List.not_mem_nil c)⟩
    · intro v
      rw [edgeCountInto]
      cases alookup inDeg v <;> simp
    · intro u
      rw [outgoingTargets]
      cases alookup adj u <;> simp
  | cons conn rest ih =>
    intro inDeg adj out h
    rw [buildLoop] at h
    cases hd : alookup inDeg conn.to_node with
    | none => rw [hd] at h; cases h
    | some d =>
      rw [hd] at h
      dsimp only at h
      cases ha : alookup adj conn.from_node with
      | none => rw [ha] at h; cases h
      | some lst =>
        rw [ha] at h
        dsimp only at h
        obtain ⟨hf1, hf2, hv, hu, hrest⟩ := ih _ _ _ h
        refine ⟨by rw [hf1, aset_map_fst], by rw [hf2, aset_map_fst],
          ?_, ?_, ?_⟩
        · intro v
          rw [hv v]
          by_cases hveq : v = conn.to_node
          · subst hveq
            rw [alookup_aset_self conn.to_node (d + 1) inDeg d hd, hd]
            simp only [Option.map_some', Option.some.injEq]
            rw [edgeCountInto, edgeCountInto, List.countP_cons,
              if_pos (by simp)]
            push_cast
            ring
          · rw [alookup_aset_ne conn.to_node v (d + 1) hveq]
            have : edgeCountInto (conn :: rest) v = edgeCountInto rest v := by
              rw [edgeCountInto, edgeCountInto, List.countP_cons,
                if_neg (by simpa using fun hx => hveq hx.symm)]
              omega
            rw [this]
        · intro u
          rw [hu u]
          by_cases hueq : u = conn.from_node
          · subst hueq
            rw [alookup_aset_self conn.from_node (lst ++ [conn.to_node])
              adj lst ha, ha]
            simp only [Option.map_some', Option.some.injEq]
            rw [outgoingTargets_cons, if_pos rfl]
            simp
          · rw [alookup_aset_ne conn.from_node u (lst ++ [conn.to_node]) hueq]
            rw [outgoingTargets_cons,
              if_neg (fun hx => hueq hx.symm)]
        · intro c hc
          rcases List.mem_cons.mp hc with rfl | hm
          · exact ⟨by rw [hd]; rfl, by rw [ha]; rfl⟩
          · obtain ⟨h1, h2⟩ := hrest c hm
            constructor
            · by_cases hceq : c.to_node = conn.to_node
              · rw [hceq, hd]
                rfl
              · rw [alookup_aset_ne conn.to_node c.to_node (d + 1) hceq] at h1
                exact h1
            · by_cases hceq : c.from_node = conn.from_node
              · rw [hceq, ha]
                rfl
              · rw [alookup_aset_ne conn.from_node c.from_node
                  (lst ++ [conn.to_node]) hceq] at h2
                exact h2

/-- Nothing is consumed while the output is empty. -/
theorem consumed_nil (conns : List Connection) (v : String) :
    consumed conns v [] = 0 := by
  rw [consumed]
  apply List.countP_eq_zero.mpr
  intro c _
  simp

/-- Soundness of `recompute_execution_order`: a successful recompute on a
graph with unique node ids yields an order of the same length as the node
map in which every connection's source precedes its target. -/
theorem recompute_sound (g : AudioGraph)
    (hnd : (g.nodes.map (fun p => p.1)).Nodup)
    (order : List String)
    (h : g.recompute_execution_order = some (.ok order)) :
    order.length = g.nodes.length
    ∧ ∀ c ∈ g.connections,
        order.indexOf c.from_node < order.indexOf c.to_node := by
  rw [AudioGraph.recompute_execution_order] at h
  dsimp only at h
  cases hb : buildLoop g.connections
      ((g.nodes.map (fun p => p.1)).map (fun k => (k, (0 : ℤ))))
      ((g.nodes.map (fun p => p.1)).map (fun k => (k, ([] : List String))))
    with
  | none => rw [hb] at h; cases h
  | some pair =>
    rw [hb] at h
    dsimp only at h
    obtain ⟨inDeg, adj⟩ := pair
    obtain ⟨hf1, hf2, hv, hu, hends⟩ := buildLoop_spec g.connections _ _ _ hb
    have hkeys0 : ((g.nodes.map (fun p => p.1)).map
        (fun k => (k, (0 : ℤ)))).map (fun p => p.1)
        = g.nodes.map (fun p => p.1) := by
      rw [List.map_map]
      simp
    have hkeysadj : ((g.nodes.map (fun p => p.1)).map
        (fun k => (k, ([] : List String)))).map (fun p => p.1)
        = g.nodes.map (fun p => p.1) := by
      rw [List.map_map]
      simp
    rw [hkeys0] at hf1
    rw [hkeysadj] at hf2
    have hconnTo : ∀ c ∈ g.connections,
        c.to_node ∈ g.nodes.map (fun p => p.1) := by
      intro c hc
      have := (hends c hc).1
      rw [alookup_map_const] at this
      by_contra hmem
      rw [if_neg hmem] at this
      cases this
    have hconnFrom : ∀ c ∈ g.connections,
        c.from_node ∈ g.nodes.map (fun p => p.1) := by
      intro c hc
      have := (hends c hc).2
      rw [alookup_map_const] at this
      by_contra hmem
      rw [if_neg hmem] at this
      cases this
    have hdeglook : ∀ v, alookup inDeg v
        = if v ∈ g.nodes.map (fun p => p.1)
          then some ((edgeCountInto g.connections v : ℤ)) else none := by
      intro v
      rw [hv v, alookup_map_const]
      by_cases hm : v ∈ g.nodes.map (fun p => p.1)
      · rw [if_pos hm, if_pos hm, Option.map_some']
        simp
      · rw [if_neg hm, if_neg hm]
        rfl
    have hadjlook : ∀ u, alookup adj u
        = if u ∈ g.nodes.map (fun p => p.1)
          then some (outgoingTargets g.connections u) else none := by
      intro u
      rw [hu u, alookup_map_const]
      by_cases hm : u ∈ g.nodes.map (fun p => p.1)
      · rw [if_pos hm, if_pos hm, Option.map_some']
        simp
      · rw [if_neg hm, if_neg hm]
        rfl
    cases hk : kahnLoop adj
        ((inDeg.filter (fun p => p.2 = 0)).map (fun p => p.1)) inDeg [] with
    | none => rw [hk] at h; cases h
    | some sorted =>
      rw [hk] at h
      dsimp only at h
      by_cases hlen : sorted.length ≠ g.nodes.length
      · rw [if_pos hlen] at h
        cases h
      · rw [if_neg hlen] at h
        injection h with h
        injection h with h
        subst h
        push_neg at hlen
        -- initial invariants for the worklist
        have hqsub : ((inDeg.filter (fun p => p.2 = 0)).map
            (fun p => p.1)).Sublist (inDeg.map (fun p => p.1)) :=
          (List.filter_sublist inDeg).map (fun p => p.1)
        have hqnodup : ((inDeg.filter (fun p => p.2 = 0)).map
            (fun p => p.1)).Nodup :=
          (hf1 ▸ hnd : (inDeg.map (fun p => p.1)).Nodup).sublist hqsub
        have hqmem : ∀ v ∈ (inDeg.filter (fun p => p.2 = 0)).map
            (fun p => p.1), v ∈ g.nodes.map (fun p => p.1) := by
          intro v hvm
          rw [← hf1]
          exact hqsub.subset hvm
        obtain ⟨hondup, omem, opred⟩ := kahnLoop_sound g.connections
          (g.nodes.map (fun p => p.1)) adj hadjlook hconnTo
          (degSum inDeg + ((inDeg.filter (fun p => p.2 = 0)).map
            (fun p => p.1)).length)
          _ inDeg [] sorted le_rfl hk
          (by simpa using hqnodup)
          (by simpa using hqmem)
          hf1
          (by
            intro v hvk
            rw [hdeglook v, if_pos hvk, consumed_nil]
            simp)
          (by
            intro v hvm d hvd
            simp only [List.nil_append] at hvm
            obtain ⟨p, hpf, hpv⟩ := List.mem_map.mp hvm
            have hpz := List.of_mem_filter hpf
            simp only [decide_eq_true_eq] at hpz
            have : alookup inDeg v = some p.2 := by
              apply alookup_of_mem_nodup v p.2 inDeg (hf1 ▸ hnd)
              have hpm := List.mem_of_mem_filter hpf
              rw [← hpv]
              simpa using hpm
            rw [this] at hvd
            injection hvd with hvd
            omega)
          (by intro v hv; cases hv)
        -- the order is a permutation of the keys
        have hperm : sorted.Perm (g.nodes.map (fun p => p.1)) := by
          refine List.Subperm.perm_of_length_le (hondup.subperm omem) ?_
          rw [hlen]
          simp
        refine ⟨hlen, ?_⟩
        intro c hc
        have hto : c.to_node ∈ sorted :=
          hperm.mem_iff.mpr (hconnTo c hc)
        exact (opred c.to_node hto c hc rfl).2


/-- A key occurring in the key sequence has a present lookup. -/
theorem alookup_isSome_of_mem_fst (k : String) :
    ∀ m : List (String × α), k ∈ m.map (fun p => p.1) →
      (alookup m k).isSome := by
  intro m
  induction m with
  | nil => intro h; cases h
  | cons p rest ih =>
    intro h
    rw [alookup]
    split
    · rfl
    · rename_i hk
      rw [List.map_cons] at h
      rcases List.mem_cons.mp h with he | hm
      · exact absurd he hk
      · exact ih hm

/-- The cached execution order is a complete, topologically sound
linearization: it lists as many ids as there are nodes, and every
connection's source strictly precedes its target. -/
def TopoOK (g : AudioGraph) : Prop :=
  g.execution_order.length = g.nodes.length
  ∧ ∀ c ∈ g.connections,
      g.execution_order.indexOf c.from_node
        < g.execution_order.indexOf c.to_node

/-- C7 (confirmed): on a graph with unique node ids, every successfully
completed mutation — `add_node`, `remove_node`, `connect`, `disconnect` —
leaves the cached execution order a valid linearization of the connection
list (every connection's source comes before its target) whose length
equals the number of nodes. -/
theorem C7_mutations_preserve_topology (g : AudioGraph)
    (hnd : (g.nodes.map (fun p => p.1)).Nodup) :
    (∀ node g', g.add_node node = some (g', none) → TopoOK g')
    ∧ (∀ id g', g.remove_node id = some (g', none) → TopoOK g')
    ∧ (∀ conn g', g.connect conn = some (g', none) → TopoOK g')
    ∧ (∀ a b g', g.disconnect a b = some (g', none) → TopoOK g') := by
  refine ⟨?_, ?_, ?_, ?_⟩
  · -- add_node
    intro node g' hop
    rw [AudioGraph.add_node] at hop
    dsimp only at hop
    by_cases hpres : (alookup g.nodes node.nodeId).isSome
    · rw [if_pos hpres] at hop
      simp at hop
    · rw [if_neg hpres] at hop
      have hnd1 : (((g.nodes ++ [(node.nodeId, node)]).map
          (fun p => p.1)).Nodup) := by
        rw [List.map_append]
        refine ((List.perm_append_singleton _ _).nodup_iff).mpr ?_
        refine List.nodup_cons.mpr ⟨?_, hnd⟩
        intro hmem
        exact hpres (alookup_isSome_of_mem_fst _ g.nodes hmem)
      cases hrec : AudioGraph.recompute_execution_order
          { g with nodes := g.nodes ++ [(node.nodeId, node)] } with
      | none => rw [hrec] at hop; cases hop
      | some r =>
        rw [hrec] at hop
        cases r with
        | error e => simp at hop
        | ok order =>
          dsimp only at hop
          rw [Option.some.injEq, Prod.mk.injEq] at hop
          obtain ⟨hg, -⟩ := hop
          subst hg
          obtain ⟨hlen, hidx⟩ := recompute_sound
            { g with nodes := g.nodes ++ [(node.nodeId, node)] }
            hnd1 order hrec
          exact ⟨hlen, hidx⟩
  · -- remove_node
    intro id g' hop
    rw [AudioGraph.remove_node] at hop
    dsimp only at hop
    by_cases habs : (alookup g.nodes id).isNone
    · rw [if_pos habs] at hop
      simp at hop
    · rw [if_neg habs] at hop
      have hnd1 : (((g.nodes.filter (fun p => p.1 ≠ id)).map
          (fun p => p.1)).Nodup) :=
        hnd.sublist ((List.filter_sublist g.nodes).map (fun p => p.1))
      cases hrec : AudioGraph.recompute_execution_order
          { g with
            nodes := g.nodes.filter (fun p => p.1 ≠ id)
            connections := g.connections.filter (fun c => c.from_node ≠ id ∧ c.to_node ≠ id)
            buffer_cache := aremove id g.buffer_cache } with
      | none => rw [hrec] at hop; cases hop
      | some r =>
        rw [hrec] at hop
        cases r with
        | error e => simp at hop
        | ok order =>
          dsimp only at hop
          rw [Option.some.injEq, Prod.mk.injEq] at hop
          obtain ⟨hg, -⟩ := hop
          subst hg
          obtain ⟨hlen, hidx⟩ := recompute_sound
            { g with
              nodes := g.nodes.filter (fun p => p.1 ≠ id)
              connections := g.connections.filter (fun c => c.from_node ≠ id ∧ c.to_node ≠ id)
              buffer_cache := aremove id g.buffer_cache }
            hnd1 order hrec
          exact ⟨hlen, hidx⟩
  · -- connect
    intro conn g' hop
    rw [AudioGraph.connect] at hop
    dsimp only at hop
    by_cases h1 : (alookup g.nodes conn.from_node).isNone
    · rw [if_pos h1] at hop
      simp at hop
    · rw [if_neg h1] at hop
      by_cases h2 : (alookup g.nodes conn.to_node).isNone
      · rw [if_pos h2] at hop
        simp at hop
      · rw [if_neg h2] at hop
        by_cases h3 : g.would_create_cycle conn
        · rw [if_pos h3] at hop
          simp at hop
        · rw [if_neg h3] at hop
          cases hrec : AudioGraph.recompute_execution_order
              { g with connections := g.connections ++ [conn] } with
          | none => rw [hrec] at hop; cases hop
          | some r =>
            rw [hrec] at hop
            cases r with
            | error e => simp at hop
            | ok order =>
              dsimp only at hop
              rw [Option.some.injEq, Prod.mk.injEq] at hop
              obtain ⟨hg, -⟩ := hop
              subst hg
              obtain ⟨hlen, hidx⟩ := recompute_sound
                { g with connections := g.connections ++ [conn] }
                hnd order hrec
              exact ⟨hlen, hidx⟩
  · -- disconnect
    intro a b g' hop
    rw [AudioGraph.disconnect] at hop
    dsimp only at hop
    cases hrec : AudioGraph.recompute_execution_order
        { g with connections := g.connections.filter (fun c => ¬(c.from_node = a ∧ c.to_node = b)) } with
    | none => rw [hrec] at hop; cases hop
    | some r =>
      rw [hrec] at hop
      cases r with
      | error e => simp at hop
      | ok order =>
        dsimp only at hop
        rw [Option.some.injEq, Prod.mk.injEq] at hop
        obtain ⟨hg, -⟩ := hop
        subst hg
        obtain ⟨hlen, hidx⟩ := recompute_sound
          { g with connections := g.connections.filter (fun c => ¬(c.from_node = a ∧ c.to_node = b)) }
          hnd order hrec
        exact ⟨hlen, hidx⟩

set_option maxRecDepth 4000 in
/-- Witness for C7: on the empty graph (whose key list is trivially
nodup), adding a single gain node succeeds and the resulting graph
satisfies the topology invariant. -/
theorem C7_mutations_preserve_topology_witness :
    (AudioGraph.new.nodes.map (fun p => p.1)).Nodup ∧ TopoOK c1Graph := by
  have hnd : (AudioGraph.new.nodes.map (fun p => p.1)).Nodup := by
    simp [AudioGraph.new]
  refine ⟨hnd, ?_⟩
  have hadd : AudioGraph.new.add_node (.gain (GainNode.new "a"))
      = some (c1Graph, none) := by
    simp [AudioGraph.new, AudioGraph.add_node,
      AudioGraph.recompute_execution_order, alookup, buildLoop, kahnLoop,
      processNeighbors, c1Graph, RefNode.nodeId, GainNode.new, degSum]
  exact (C7_mutations_preserve_topology AudioGraph.new hnd).1
    (.gain (GainNode.new "a")) c1Graph hadd
